import Mathlib

/-!
Verification development for the notion-mcp-server repository.

The definitions below are a shallow embedding of the TypeScript sources:
JSON values become an inductive `Json` type (JS numbers are modelled as
exact rationals plus signed infinities; JS objects become ordered
association lists, which is faithful because JS object keys are unique and
enumeration follows insertion order for string keys), and the functions of
`src/openapi-mcp-server/client/http-client.ts`, the `MCPProxy` class and
the block formatter are translated one branch at a time.
-/

/-- A JS number as produced by `parseInt`/`parseFloat`/JSON parsing:
an exact rational, or a signed infinity (`parseFloat("Infinity")`).
`NaN` is represented as the absence of a result (`Option`). The model is
exact where IEEE doubles round; no claim in this development depends on
rounding. -/
inductive JsNumber where
  | fin (q : ℚ)
  | inf (neg : Bool)
deriving DecidableEq

/-- A JSON value. `obj` keeps fields in insertion order, mirroring
`Object.entries` on a JS object with (necessarily unique) string keys. -/
inductive Json where
  | null
  | bool (b : Bool)
  | num (n : JsNumber)
  | str (s : String)
  | arr (elems : List Json)
  | obj (fields : List (String × Json))


/-- The `type` keyword of a JSON-Schema / OpenAPI schema node. -/
inductive SType where
  | integer
  | number
  | boolean
  | string
  | object
  | array
deriving DecidableEq

/-- A JSON-Schema-shaped node as used by the sources: either a `$ref`
(kept symbolic, resolved against an environment), or a node carrying the
fields the embedded code inspects: `type`, `properties`, `items`,
`additionalProperties`. `Option` distinguishes an absent keyword from a
present-but-empty one (`{}` is truthy in JS, `undefined` is not). -/
inductive Schema where
  | ref (r : String)
  | node (ty : Option SType) (props : Option (List (String × Schema)))
      (items : Option Schema) (addl : Option Bool)


/-! ## JavaScript lexical helpers -/

/-- JS whitespace as skipped by `parseInt`/`parseFloat`. -/
def isJsSpace (c : Char) : Bool :=
  c == ' ' || c == '\t' || c == '\n' || c == '\r' || c == '\x0b' || c == '\x0c'

/-- Split a character list into its longest run of leading decimal digits
and the remainder. -/
def splitLeadingDigits : List Char → List Char × List Char
  | [] => ([], [])
  | c :: cs =>
    if c.isDigit then
      let p := splitLeadingDigits cs
      (c :: p.1, p.2)
    else ([], c :: cs)

/-- Decimal digits to a natural number. -/
def digitsToNat (ds : List Char) : Nat :=
  ds.foldl (fun a c => a * 10 + (c.toNat - '0'.toNat)) 0

/-- Consume an optional leading sign; returns (negative?, rest). -/
def splitSign : List Char → Bool × List Char
  | '-' :: cs => (true, cs)
  | '+' :: cs => (false, cs)
  | cs => (false, cs)

/-- JS `parseInt(s, 10)`: skip whitespace, optional sign, then the longest
run of decimal digits; `NaN` (modelled as `none`) when that run is empty.
Trailing characters are ignored.  (The JS result is a double; the model is
exact, which agrees on every input small enough to matter here.) -/
def parseIntJs (s : String) : Option Int :=
  let cs := s.toList.dropWhile isJsSpace
  let p := splitSign cs
  let ds := (splitLeadingDigits p.2).1
  if ds.isEmpty then none
  else some (if p.1 then -(digitsToNat ds : Int) else (digitsToNat ds : Int))

/-- JS `parseFloat(s)`: skip whitespace, optional sign, then the longest
valid decimal-literal prefix — `Infinity`, or digits with an optional
fraction part and an optional exponent (an exponent marker is consumed
only when at least one exponent digit follows).  `none` models `NaN`. -/
def parseFloatJs (s : String) : Option JsNumber :=
  let cs := s.toList.dropWhile isJsSpace
  let p := splitSign cs
  let neg := p.1
  if p.2.take 8 = "Infinity".toList then some (.inf neg)
  else
    let q1 := splitLeadingDigits p.2
    let intDs := q1.1
    let q2 := match q1.2 with
      | '.' :: r => splitLeadingDigits r
      | _ => ([], q1.2)
    let fracDs := q2.1
    if intDs.isEmpty && fracDs.isEmpty then none
    else
      let expVal : Int :=
        match q2.2 with
        | 'e' :: r | 'E' :: r =>
          let sp := splitSign r
          let eds := (splitLeadingDigits sp.2).1
          if eds.isEmpty then 0
          else if sp.1 then -(digitsToNat eds : Int) else (digitsToNat eds : Int)
        | _ => 0
      let mant : ℚ := (digitsToNat intDs : ℚ) +
        (digitsToNat fracDs : ℚ) / (10 : ℚ) ^ fracDs.length
      let q : ℚ := mant * (10 : ℚ) ^ expVal
      some (.fin (if neg then -q else q))

/-! ## JS object semantics -/

/-- One step of JS property assignment / object-literal spread: an existing
key keeps its position and gets the new value, a new key is appended. -/
def objSpreadInsert (base : List (String × Json)) (k : String) (v : Json) :
    List (String × Json) :=
  if base.any (fun p => p.1 == k) then
    base.map (fun p => if p.1 = k then (k, v) else p)
  else base ++ [(k, v)]

/-- Build a JS object from a field list with possibly repeated keys:
first occurrence fixes the position, last occurrence fixes the value
(JS object-literal / `JSON.parse` duplicate-key semantics). -/
def jsObjOfFields (fs : List (String × Json)) : List (String × Json) :=
  fs.foldl (fun acc kv => objSpreadInsert acc kv.1 kv.2) []

/-- `Object.entries` on a JS array: index-keyed entries, as produced by
spreading an array into an object literal. -/
def jsArrayEntries (i : Nat) : List Json → List (String × Json)
  | [] => []
  | x :: xs => (toString i, x) :: jsArrayEntries (i + 1) xs

/-! ## A model of `JSON.parse` -/

/-- JSON whitespace (RFC 8259, what `JSON.parse` skips). -/
def isJsonWs (c : Char) : Bool := c == ' ' || c == '\t' || c == '\n' || c == '\r'

/-- Value of one hex digit (codepoints: 0-9 are 48..57, a-f 97..102, A-F 65..70). -/
def hexDigitVal (ch : Char) : Option Nat :=
  let cv := ch.toNat
  if 48 ≤ cv ∧ cv ≤ 57 then some (cv - 48)
  else if 97 ≤ cv ∧ cv ≤ 102 then some (cv - 87)
  else if 65 ≤ cv ∧ cv ≤ 70 then some (cv - 55)
  else none

/-- Four hex digits, returning their value and the rest. -/
def decodeHex4 : List Char → Option (Nat × List Char)
  | h1 :: h2 :: h3 :: h4 :: rest =>
    match hexDigitVal h1, hexDigitVal h2, hexDigitVal h3, hexDigitVal h4 with
    | some a, some b, some c, some d => some (((a * 16 + b) * 16 + c) * 16 + d, rest)
    | _, _, _, _ => none
  | _ => none

/-- Body of a JSON string after the opening quote: decoded characters and
the remainder after the closing quote.  Escapes follow `JSON.parse`;
surrogate pairs in consecutive unicode escapes are combined, and a lone
surrogate (legal for `JSON.parse`, not representable as a Lean scalar
value) decodes as U+FFFD.  Unescaped control characters are rejected. -/
def parseJsonStringBody : Nat → List Char → Option (List Char × List Char)
  | 0, _ => none
  | _, [] => none
  | fuel + 1, c :: cs =>
    if c == '"' then some ([], cs)
    else if c == '\\' then
      match cs with
      | [] => none
      | e :: cs2 =>
        if e == 'u' then
          match decodeHex4 cs2 with
          | none => none
          | some (n, cs3) =>
            if 0xD800 ≤ n && n ≤ 0xDBFF then
              match cs3 with
              | '\\' :: 'u' :: cs4 =>
                match decodeHex4 cs4 with
                | some (m, cs5) =>
                  if 0xDC00 ≤ m && m ≤ 0xDFFF then
                    match parseJsonStringBody fuel cs5 with
                    | some (out, rest) =>
                      some (Char.ofNat (0x10000 + (n - 0xD800) * 0x400 + (m - 0xDC00)) :: out,
                        rest)
                    | none => none
                  else
                    match parseJsonStringBody fuel cs3 with
                    | some (out, rest) => some ('�' :: out, rest)
                    | none => none
                | none =>
                  match parseJsonStringBody fuel cs3 with
                  | some (out, rest) => some ('�' :: out, rest)
                  | none => none
              | _ =>
                match parseJsonStringBody fuel cs3 with
                | some (out, rest) => some ('�' :: out, rest)
                | none => none
            else if 0xDC00 ≤ n && n ≤ 0xDFFF then
              match parseJsonStringBody fuel cs3 with
              | some (out, rest) => some ('�' :: out, rest)
              | none => none
            else
              match parseJsonStringBody fuel cs3 with
              | some (out, rest) => some (Char.ofNat n :: out, rest)
              | none => none
        else
          let dec : Option Char :=
            if e == '"' then some '"'
            else if e == '\\' then some '\\'
            else if e == '/' then some '/'
            else if e == 'b' then some '\x08'
            else if e == 'f' then some '\x0c'
            else if e == 'n' then some '\n'
            else if e == 'r' then some '\r'
            else if e == 't' then some '\t'
            else none
          match dec with
          | none => none
          | some d =>
            match parseJsonStringBody fuel cs2 with
            | some (out, rest) => some (d :: out, rest)
            | none => none
    else if c.toNat < 0x20 then none
    else
      match parseJsonStringBody fuel cs with
      | some (out, rest) => some (c :: out, rest)
      | none => none

/-- The numeric value of a JSON number token. -/
def mkJsonNum (neg : Bool) (intDs fracDs : List Char) (eneg : Bool)
    (eds : List Char) : JsNumber :=
  let e : Int := if eneg then -(digitsToNat eds : Int) else (digitsToNat eds : Int)
  let mant : ℚ := (digitsToNat intDs : ℚ) +
    (digitsToNat fracDs : ℚ) / (10 : ℚ) ^ fracDs.length
  let q : ℚ := mant * (10 : ℚ) ^ e
  .fin (if neg then -q else q)

/-- Exponent part of a JSON number token (strict JSON grammar). -/
def jsonNumExp (neg : Bool) (intDs fracDs : List Char) (r2 : List Char) :
    Option (JsNumber × List Char) :=
  match r2 with
  | 'e' :: r | 'E' :: r =>
    let sp := splitSign r
    let q := splitLeadingDigits sp.2
    if q.1.isEmpty then none
    else some (mkJsonNum neg intDs fracDs sp.1 q.1, q.2)
  | _ => some (mkJsonNum neg intDs fracDs false [], r2)

/-- Fraction part of a JSON number token: a dot must be followed by at
least one digit (strict JSON grammar). -/
def jsonNumTail (neg : Bool) (intDs : List Char) (r1 : List Char) :
    Option (JsNumber × List Char) :=
  match r1 with
  | '.' :: r =>
    let q := splitLeadingDigits r
    if q.1.isEmpty then none else jsonNumExp neg intDs q.1 q.2
  | _ => jsonNumExp neg intDs [] r1

/-- A JSON number token (strict grammar: optional minus, `0` or a nonzero
digit followed by digits, optional fraction, optional exponent).  A leading
zero is a complete integer part by itself; a following digit is left
unconsumed, which makes the surrounding parse fail exactly as `JSON.parse`
rejects documents such as `01`. -/
def parseJsonNumberTok (cs : List Char) : Option (JsNumber × List Char) :=
  let p := match cs with
    | '-' :: r => (true, r)
    | _ => (false, cs)
  match p.2 with
  | [] => none
  | c :: rest =>
    if c == '0' then jsonNumTail p.1 [c] rest
    else if c.isDigit then
      let q := splitLeadingDigits p.2
      jsonNumTail p.1 q.1 q.2
    else none

mutual

/-- One JSON value, fuel-indexed recursive descent. -/
def parseJsonValue : Nat → List Char → Option (Json × List Char)
  | 0, _ => none
  | fuel + 1, cs0 =>
    let cs := cs0.dropWhile isJsonWs
    match cs with
    | [] => none
    | c :: rest =>
      if c == '"' then
        match parseJsonStringBody (rest.length + 1) rest with
        | some (out, r) => some (.str (String.mk out), r)
        | none => none
      else if c == '{' then
        match parseJsonObjFields fuel rest with
        | some (fs, r) => some (.obj (jsObjOfFields fs), r)
        | none => none
      else if c == '[' then
        match parseJsonArrayItems fuel rest with
        | some (vs, r) => some (.arr vs, r)
        | none => none
      else if c == 't' && cs.take 4 = "true".toList then some (.bool true, cs.drop 4)
      else if c == 'f' && cs.take 5 = "false".toList then some (.bool false, cs.drop 5)
      else if c == 'n' && cs.take 4 = "null".toList then some (.null, cs.drop 4)
      else
        match parseJsonNumberTok cs with
        | some (n, r) => some (.num n, r)
        | none => none

/-- Array elements after `[`. -/
def parseJsonArrayItems : Nat → List Char → Option (List Json × List Char)
  | 0, _ => none
  | fuel + 1, cs =>
    let cs1 := cs.dropWhile isJsonWs
    match cs1 with
    | ']' :: r => some ([], r)
    | _ =>
      match parseJsonValue fuel cs1 with
      | none => none
      | some (v, r) =>
        match parseJsonArrayTail fuel r with
        | none => none
        | some (vs, rest) => some (v :: vs, rest)

/-- Array continuation: `]` closes, `,` demands another element. -/
def parseJsonArrayTail : Nat → List Char → Option (List Json × List Char)
  | 0, _ => none
  | fuel + 1, cs =>
    let cs1 := cs.dropWhile isJsonWs
    match cs1 with
    | ']' :: r => some ([], r)
    | ',' :: r =>
      match parseJsonValue fuel r with
      | none => none
      | some (v, r2) =>
        match parseJsonArrayTail fuel r2 with
        | none => none
        | some (vs, rest) => some (v :: vs, rest)
    | _ => none

/-- One `"key": value` member. -/
def parseJsonMember : Nat → List Char → Option ((String × Json) × List Char)
  | 0, _ => none
  | fuel + 1, cs =>
    let cs1 := cs.dropWhile isJsonWs
    match cs1 with
    | '"' :: r =>
      match parseJsonStringBody (r.length + 1) r with
      | none => none
      | some (key, r1) =>
        match r1.dropWhile isJsonWs with
        | ':' :: r3 =>
          match parseJsonValue fuel r3 with
          | some (v, rest) => some ((String.mk key, v), rest)
          | none => none
        | _ => none
    | _ => none

/-- Object members after `{`. -/
def parseJsonObjFields : Nat → List Char → Option (List (String × Json) × List Char)
  | 0, _ => none
  | fuel + 1, cs =>
    let cs1 := cs.dropWhile isJsonWs
    match cs1 with
    | '}' :: r => some ([], r)
    | _ =>
      match parseJsonMember fuel cs1 with
      | none => none
      | some (kv, r) =>
        match parseJsonObjTail fuel r with
        | none => none
        | some (kvs, rest) => some (kv :: kvs, rest)

/-- Object continuation: `}` closes, `,` demands another member. -/
def parseJsonObjTail : Nat → List Char → Option (List (String × Json) × List Char)
  | 0, _ => none
  | fuel + 1, cs =>
    let cs1 := cs.dropWhile isJsonWs
    match cs1 with
    | '}' :: r => some ([], r)
    | ',' :: r =>
      match parseJsonMember fuel r with
      | none => none
      | some (kv, r2) =>
        match parseJsonObjTail fuel r2 with
        | none => none
        | some (kvs, rest) => some (kv :: kvs, rest)
    | _ => none

end

/-- `JSON.parse`: `none` models a thrown `SyntaxError`.  The fuel bound
`2 * length + 2` dominates the recursion depth, which consumes at least
one character per two fuel steps. -/
def jsonParse (s : String) : Option Json :=
  let cs := s.toList
  match parseJsonValue (2 * cs.length + 2) cs with
  | some (v, rest) => if (rest.dropWhile isJsonWs).isEmpty then some v else none
  | none => none

/-! ## `MCPProxy.coerceValue` / `coerceParamsToSchemaTypes`
(src/unnamed/part_008, lines 182-258) -/

/-- JS `String.prototype.toLowerCase`, which the coercion code applies to
candidate boolean strings; ASCII case-folding is all that matters for
matching `"true"`/`"false"`. -/
def jsToLowerCase (s : String) : String := String.mk (s.toList.map Char.toLower)

mutual

/-- `MCPProxy.coerceValue`: coerce one value to its schema-expected type.
Branches mirror the source: `$ref` returns as-is; `integer`/`number`
parse strings via `parseInt`/`parseFloat`, keeping the string on `NaN`;
`boolean` matches `"true"`/`"false"` case-insensitively; `array` with
`items` maps element-wise over a genuine array; `object` with declared
`properties` rebuilds from `Object.entries` of the value — note that a JS
array also satisfies `typeof value === 'object' && value !== null`, so an
array under an `object` schema is rebuilt into an index-keyed object. -/
def coerceValue : Json → Schema → Json
  | v, .ref _ => v
  | .str t, .node (some .integer) _ _ _ =>
    (match parseIntJs t with
     | some n => .num (.fin n)
     | none => .str t)
  | v, .node (some .integer) _ _ _ => v
  | .str t, .node (some .number) _ _ _ =>
    (match parseFloatJs t with
     | some n => .num n
     | none => .str t)
  | v, .node (some .number) _ _ _ => v
  | .str t, .node (some .boolean) _ _ _ =>
    if jsToLowerCase t == "true" then .bool true
    else if jsToLowerCase t == "false" then .bool false
    else .str t
  | v, .node (some .boolean) _ _ _ => v
  | .arr xs, .node (some .array) _ (some it) _ => .arr (coerceList xs it)
  | v, .node (some .array) _ _ _ => v
  | .obj fs, .node (some .object) (some ps) _ _ => .obj (coerceFields fs ps)
  | .arr xs, .node (some .object) (some ps) _ _ => .obj (coerceArrFields 0 xs ps)
  | v, .node (some .object) _ _ _ => v
  | v, .node _ _ _ _ => v

/-- Element-wise coercion of an array against the `items` schema. -/
def coerceList : List Json → Schema → List Json
  | [], _ => []
  | x :: xs, s => coerceValue x s :: coerceList xs s

/-- Property-wise coercion of an object's entries: a key present in the
schema's `properties` is coerced recursively, an unknown key passes
through unchanged. -/
def coerceFields : List (String × Json) → List (String × Schema) → List (String × Json)
  | [], _ => []
  | (k, v) :: fs, ps =>
    (k, match List.lookup k ps with
        | some psch => coerceValue v psch
        | none => v) :: coerceFields fs ps

/-- `Object.entries` of a JS array under an `object` schema: index-keyed
entries, each coerced against the (index-named) schema property if any. -/
def coerceArrFields : Nat → List Json → List (String × Schema) → List (String × Json)
  | _, [], _ => []
  | i, x :: xs, ps =>
    (toString i, match List.lookup (toString i) ps with
                 | some psch => coerceValue x psch
                 | none => x) :: coerceArrFields (i + 1) xs ps

end

/-- `MCPProxy.coerceParamsToSchemaTypes`: coerce each top-level argument
against the tool input schema's `properties`.  A schema without
`properties` (or a bare `$ref`) returns the arguments unchanged; `null`
values are skipped (the source `continue`s on `null`/`undefined`). -/
def coerceParamsToSchemaTypes (params : List (String × Json)) (schema : Schema) :
    List (String × Json) :=
  match schema with
  | .node _ (some ps) _ _ =>
    params.map (fun kv =>
      match kv.2 with
      | .null => kv
      | v =>
        match List.lookup kv.1 ps with
        | some psch => (kv.1, coerceValue v psch)
        | none => kv)
  | _ => params

/-! ## `HttpClient.parseStringifiedParams` / `resolveSchema`
(src/src/openapi-mcp-server/client/http-client.ts, lines 59-132) -/

/-- A reference environment standing for the OpenAPI document's
component tables: `resolveSchema` walks `$ref` strings through the
document; the model keys the reachable schemas by their `$ref` string.
An unknown or non-local reference resolves to `null` (`none`), as in the
source. -/
def SchemaEnv := List (String × Schema)

/-- `HttpClient.resolveSchema`: a non-reference node resolves to itself;
a reference is looked up and chased (the source re-resolves nested
references; fuel bounds the chase, with `none` for a cycle deeper than
the fuel, which a finite document cannot produce). -/
def resolveSchema (env : SchemaEnv) : Nat → Schema → Option Schema
  | _, .node ty props items addl => some (.node ty props items addl)
  | 0, .ref _ => none
  | fuel + 1, .ref r =>
    match List.lookup r (env : List (String × Schema)) with
    | some s => resolveSchema env fuel s
    | none => none

/-- Does a resolved schema node declare type `object` or `array`? -/
def resolvedTypeIsStructured : Schema → Bool
  | .node (some .object) _ _ _ => true
  | .node (some .array) _ _ _ => true
  | _ => false

/-- `typeof parsed === 'object' && parsed !== null` on a `JSON.parse`
result: an object or an array. -/
def jsTypeofObjectNotNull : Json → Bool
  | .obj _ => true
  | .arr _ => true
  | _ => false

/-- The per-entry transform inside `parseStringifiedParams`' loop: a
string-valued argument whose (resolved) property schema declares `object`
or `array` is JSON-parsed; the parse result replaces the string only when
it is a non-null object/array; otherwise — parse failure, scalar parse
result, other schema type, unresolvable or absent property schema, or a
non-string value — the entry is unchanged.  No failure is ever raised. -/
def parseStringifiedEntry (env : SchemaEnv) (fuel : Nat)
    (props : List (String × Schema)) (kv : String × Json) : String × Json :=
  match kv.2 with
  | .str s =>
    (match List.lookup kv.1 props with
     | none => kv
     | some psch =>
       match resolveSchema env fuel psch with
       | none => kv
       | some rps =>
         if resolvedTypeIsStructured rps then
           match jsonParse s with
           | some parsed =>
             if jsTypeofObjectNotNull parsed then (kv.1, parsed) else kv
           | none => kv
         else kv)
  | _ => kv

/-- `HttpClient.parseStringifiedParams`: when the operation's
`application/json` request-body schema resolves to an `object` node with
declared `properties`, each argument entry is run through
`parseStringifiedEntry`; otherwise the arguments pass through unchanged. -/
def parseStringifiedParams (env : SchemaEnv) (fuel : Nat)
    (params : List (String × Json)) (bodySchema : Option Schema) :
    List (String × Json) :=
  match bodySchema with
  | none => params
  | some sch =>
    match resolveSchema env fuel sch with
    | some (.node (some .object) (some props) _ _) =>
      params.map (parseStringifiedEntry env fuel props)
    | _ => params

/-! ## Decidable equality of JSON values -/

mutual

/-- Decidable equality on `Json`, written by hand because the automatic
derive handler does not support nested inductives. -/
def jsonDecEq : (a b : Json) → Decidable (a = b)
  | .null, .null => isTrue rfl
  | .null, .bool _ => isFalse (fun h => Json.noConfusion h)
  | .null, .num _ => isFalse (fun h => Json.noConfusion h)
  | .null, .str _ => isFalse (fun h => Json.noConfusion h)
  | .null, .arr _ => isFalse (fun h => Json.noConfusion h)
  | .null, .obj _ => isFalse (fun h => Json.noConfusion h)
  | .bool _, .null => isFalse (fun h => Json.noConfusion h)
  | .bool x, .bool y =>
    if h : x = y then isTrue (by rw [h]) else isFalse (by intro hh; injection hh; exact h ‹_›)
  | .bool _, .num _ => isFalse (fun h => Json.noConfusion h)
  | .bool _, .str _ => isFalse (fun h => Json.noConfusion h)
  | .bool _, .arr _ => isFalse (fun h => Json.noConfusion h)
  | .bool _, .obj _ => isFalse (fun h => Json.noConfusion h)
  | .num _, .null => isFalse (fun h => Json.noConfusion h)
  | .num _, .bool _ => isFalse (fun h => Json.noConfusion h)
  | .num x, .num y =>
    if h : x = y then isTrue (by rw [h]) else isFalse (by intro hh; injection hh; exact h ‹_›)
  | .num _, .str _ => isFalse (fun h => Json.noConfusion h)
  | .num _, .arr _ => isFalse (fun h => Json.noConfusion h)
  | .num _, .obj _ => isFalse (fun h => Json.noConfusion h)
  | .str _, .null => isFalse (fun h => Json.noConfusion h)
  | .str _, .bool _ => isFalse (fun h => Json.noConfusion h)
  | .str _, .num _ => isFalse (fun h => Json.noConfusion h)
  | .str x, .str y =>
    if h : x = y then isTrue (by rw [h]) else isFalse (by intro hh; injection hh; exact h ‹_›)
  | .str _, .arr _ => isFalse (fun h => Json.noConfusion h)
  | .str _, .obj _ => isFalse (fun h => Json.noConfusion h)
  | .arr _, .null => isFalse (fun h => Json.noConfusion h)
  | .arr _, .bool _ => isFalse (fun h => Json.noConfusion h)
  | .arr _, .num _ => isFalse (fun h => Json.noConfusion h)
  | .arr _, .str _ => isFalse (fun h => Json.noConfusion h)
  | .arr x, .arr y =>
    match jsonListDecEq x y with
    | isTrue h => isTrue (by rw [h])
    | isFalse h => isFalse (by intro hh; injection hh; exact h ‹_›)
  | .arr _, .obj _ => isFalse (fun h => Json.noConfusion h)
  | .obj _, .null => isFalse (fun h => Json.noConfusion h)
  | .obj _, .bool _ => isFalse (fun h => Json.noConfusion h)
  | .obj _, .num _ => isFalse (fun h => Json.noConfusion h)
  | .obj _, .str _ => isFalse (fun h => Json.noConfusion h)
  | .obj _, .arr _ => isFalse (fun h => Json.noConfusion h)
  | .obj x, .obj y =>
    match jsonFieldsDecEq x y with
    | isTrue h => isTrue (by rw [h])
    | isFalse h => isFalse (by intro hh; injection hh; exact h ‹_›)

/-- Decidable equality on lists of JSON values. -/
def jsonListDecEq : (a b : List Json) → Decidable (a = b)
  | [], [] => isTrue rfl
  | [], _ :: _ => isFalse (fun h => List.noConfusion h)
  | _ :: _, [] => isFalse (fun h => List.noConfusion h)
  | x :: xs, y :: ys =>
    match jsonDecEq x y with
    | isFalse h1 => isFalse (by intro hh; injection hh; exact h1 ‹_›)
    | isTrue h1 =>
      match jsonListDecEq xs ys with
      | isTrue h2 => isTrue (by rw [h1, h2])
      | isFalse h2 => isFalse (by intro hh; injection hh; exact h2 ‹_›)

/-- Decidable equality on JSON field lists. -/
def jsonFieldsDecEq : (a b : List (String × Json)) → Decidable (a = b)
  | [], [] => isTrue rfl
  | [], _ :: _ => isFalse (fun h => List.noConfusion h)
  | _ :: _, [] => isFalse (fun h => List.noConfusion h)
  | (k, v) :: fs, (k2, v2) :: gs =>
    if hk : k = k2 then
      match jsonDecEq v v2 with
      | isFalse h1 =>
        isFalse (by
          intro hh
          injection hh with e1 e2
          exact h1 (congrArg Prod.snd e1))
      | isTrue h1 =>
        match jsonFieldsDecEq fs gs with
        | isTrue h2 => isTrue (by rw [hk, h1, h2])
        | isFalse h2 => isFalse (by intro hh; injection hh; exact h2 ‹_›)
    else
      isFalse (by
        intro hh
        injection hh with e1 e2
        exact hk (congrArg Prod.fst e1))

end

instance : DecidableEq Json := jsonDecEq

/-! ## Well-typedness (the hypothesis of the idempotence claim) -/

mutual

/-- A value is _coercion-stable_ for a schema node: it is not a string
that primitive coercion would rewrite (no parsable stringified
integer/number, no case-insensitive `"true"`/`"false"` under `boolean`),
not an array sitting under an `object` schema with declared properties
(which `Object.entries` would rebuild into an object), and recursively so
through `items` and `properties`.  This is the shape of argument set the
idempotence claim calls already-correctly-typed. -/
def typedOk : Json → Schema → Bool
  | _, .ref _ => true
  | v, .node (some .integer) _ _ _ =>
    (match v with
     | .str t => (parseIntJs t).isNone
     | _ => true)
  | v, .node (some .number) _ _ _ =>
    (match v with
     | .str t => (parseFloatJs t).isNone
     | _ => true)
  | v, .node (some .boolean) _ _ _ =>
    (match v with
     | .str t => !(jsToLowerCase t == "true" || jsToLowerCase t == "false")
     | _ => true)
  | v, .node (some .array) _ items _ =>
    (match v, items with
     | .arr xs, some it => typedOkList xs it
     | _, _ => true)
  | v, .node (some .object) props _ _ =>
    (match v, props with
     | .obj fs, some ps => typedOkFields fs ps
     | .arr _, some _ => false
     | _, _ => true)
  | _, .node _ _ _ _ => true

/-- Element-wise coercion-stability. -/
def typedOkList : List Json → Schema → Bool
  | [], _ => true
  | x :: xs, s => typedOk x s && typedOkList xs s

/-- Field-wise coercion-stability against declared properties; unknown
keys are always stable (they pass through untouched). -/
def typedOkFields : List (String × Json) → List (String × Schema) → Bool
  | [], _ => true
  | (k, v) :: fs, ps =>
    (match List.lookup k ps with
     | some psch => typedOk v psch
     | none => true) && typedOkFields fs ps

end

/-- Top-level stability for `parseStringifiedParams`: no entry is a string
that stringified-structure recovery would replace, i.e. no string value
sits at a key whose resolved property schema is `object`/`array` while the
string parses as JSON to an object or array. -/
def noRecoverableString (env : SchemaEnv) (fuel : Nat)
    (props : List (String × Schema)) (kv : String × Json) : Bool :=
  match kv.2 with
  | .str s =>
    (match List.lookup kv.1 props with
     | none => true
     | some psch =>
       match resolveSchema env fuel psch with
       | none => true
       | some rps =>
         if resolvedTypeIsStructured rps then
           match jsonParse s with
           | some parsed => !jsTypeofObjectNotNull parsed
           | none => true
         else true)
  | _ => true

/-! ## The request executor (`HttpClient.executeOperation`,
src/src/openapi-mcp-server/client/http-client.ts lines 186-282) -/

/-- Location of a declared OpenAPI operation parameter. -/
inductive ParamLoc where
  | path
  | query
  | header
  | cookie
deriving DecidableEq, BEq

/-- One declared operation parameter (the executor only reads `name` and
`in`). -/
structure OperationParam where
  name : String
  loc : ParamLoc

/-- An operation descriptor as the executor consumes it: declared
parameters, the request body (`none` = no `requestBody` at all; the inner
`Option Schema` is the `application/json` schema when one is declared),
and the file-upload parameter names computed by the side-channel
`isFileUploadParameter` convention (empty = not multipart). -/
structure Operation where
  operationId : String
  parameters : List OperationParam
  requestBody : Option (Option Schema)
  fileParams : List String

/-- The `application/json` request-body schema of an operation
(`operation.requestBody?.content?.['application/json']?.schema`). -/
def operationBodySchema (op : Operation) : Option Schema :=
  match op.requestBody with
  | some (some s) => some s
  | _ => none

/-- `parseStringifiedParams` as called with a full operation. -/
def parseStringifiedParamsOp (env : SchemaEnv) (fuel : Nat)
    (params : List (String × Json)) (op : Operation) : List (String × Json) :=
  parseStringifiedParams env fuel params (operationBodySchema op)

/-- Is `n` the name of a declared `path` or `query` parameter? -/
def isUrlParamName (op : Operation) (n : String) : Bool :=
  op.parameters.any (fun p => p.name == n && (p.loc == .path || p.loc == .query))

/-- The `urlParameters` record: iterate the operation's declared
parameters, copying each present `path`/`query` argument. -/
def urlParamsPhase (pp : List (String × Json)) (op : Operation) :
    List (String × Json) :=
  op.parameters.foldl
    (fun acc p =>
      if p.loc == .path || p.loc == .query then
        match List.lookup p.name pp with
        | some v => objSpreadInsert acc p.name v
        | none => acc
      else acc)
    []

/-- The Content-Type decision of the executor. -/
inductive HeaderChoice where
  | json        -- Content-Type: application/json
  | suppressed  -- Content-Type: null (explicitly no content type)
  | multipart   -- formData.getHeaders(): multipart/form-data with boundary
deriving DecidableEq

/-- The body argument handed to the generated operation function. -/
inductive BodyPayload where
  | fields (fs : List (String × Json))
  | multipartForm

/-- The dispatched request, as far as headers/body/url placement go. -/
structure RequestPlan where
  urlParameters : List (String × Json)
  bodyArg : Option BodyPayload
  header : HeaderChoice

/-- The non-multipart body parameter set: the parsed arguments minus the
ones claimed by declared `path`/`query` parameters, and emptied entirely
when the operation declares no request body (everything is then moved to
URL parameters). -/
def nonMultipartBodyParams (env : SchemaEnv) (fuel : Nat) (op : Operation)
    (params : List (String × Json)) : List (String × Json) :=
  let pp := parseStringifiedParamsOp env fuel params op
  let b1 := pp.filter (fun kv => !isUrlParamName op kv.1)
  if op.requestBody.isNone then [] else b1

/-- `HttpClient.executeOperation`'s request construction: stringified
parameters are recovered, arguments are partitioned into URL and body
parameters, a missing request body moves everything to the URL side, and
the headers are chosen as in lines 237-250: multipart uses the encoder's
boundary headers; otherwise a non-empty body yields
`Content-Type: application/json` and an empty body suppresses the header
(`Content-Type: null`) with an `undefined` body argument.  (A `FormData`
object has own enumerable keys, so in the multipart case `hasBody` is
true and the form is passed as the body.) -/
def buildRequestPlan (env : SchemaEnv) (fuel : Nat) (op : Operation)
    (params : List (String × Json)) : RequestPlan :=
  let pp := parseStringifiedParamsOp env fuel params op
  let url1 := urlParamsPhase pp op
  if op.fileParams.isEmpty then
    let body2 := nonMultipartBodyParams env fuel op params
    let url2 :=
      if op.requestBody.isNone then
        (pp.filter (fun kv => !isUrlParamName op kv.1)).foldl
          (fun acc kv => objSpreadInsert acc kv.1 kv.2) url1
      else url1
    if body2.isEmpty then
      { urlParameters := url2, bodyArg := none, header := .suppressed }
    else
      { urlParameters := url2, bodyArg := some (.fields body2), header := .json }
  else
    { urlParameters := url1, bodyArg := some .multipartForm, header := .multipart }

/-! ## Typed HTTP errors and the dispatcher's error content
(http-client.ts lines 20-30 and 263-281; part_008 lines 108-139) -/

/-- The `error.response` of a transport-level-successful, HTTP-error
axios failure. -/
structure AxiosErrorResponse where
  status : Nat
  statusText : String
  data : Json
  headers : List (String × String)

/-- The typed `HttpClientError`: message `` `${status} ${message}` `` is
built by the superclass; the class carries status, parsed remote body and
remote headers. -/
structure HttpClientError where
  message : String
  status : Nat
  data : Json
  headers : List (String × String)

/-- http-client.ts line 278: the rethrow of an axios error that carries a
response, as `new HttpClientError(statusText || 'Request failed',
status, data, headers)`. -/
def httpClientErrorOfResponse (r : AxiosErrorResponse) : HttpClientError :=
  { message := if r.statusText == "" then "Request failed" else r.statusText
    status := r.status
    data := r.data
    headers := r.headers }

/-- part_008 line 125: `error.data?.response?.data ?? error.data ?? {}`.
The optional chain yields the nested `response.data` member when the body
is an object with that path; `??` skips `null`/absent values. -/
def callToolErrorData (body : Json) : Json :=
  let chain : Option Json :=
    match body with
    | .obj fs =>
      match List.lookup "response" fs with
      | some (.obj fs2) => List.lookup "data" fs2
      | _ => none
    | _ => none
  let fallback : Json :=
    match body with
    | .null => .obj []
    | _ => body
  match chain with
  | some .null => fallback
  | some v => v
  | none => fallback

/-- part_008 lines 130-133: the object serialized into the single text
content item, `{ status: 'error', ...(typeof data === 'object' ? data :
{ data: data }) }`.  Spreading follows JS: object fields override in
place, arrays spread index-keyed entries, `null` spreads nothing. -/
def statusErrorPayload (d : Json) : Json :=
  let base : List (String × Json) := [("status", .str "error")]
  match d with
  | .obj fs => .obj (fs.foldl (fun acc kv => objSpreadInsert acc kv.1 kv.2) base)
  | .arr xs => .obj ((jsArrayEntries 0 xs).foldl (fun acc kv => objSpreadInsert acc kv.1 kv.2) base)
  | .null => .obj base
  | v => .obj (base ++ [("data", v)])

/-- The JSON payload of the dispatcher's error result for a typed
`HttpClientError` (the handler returns one `text` content item holding
`JSON.stringify` of this value). -/
def callToolErrorContent (e : HttpClientError) : Json :=
  statusErrorPayload (callToolErrorData e.data)

/-- The dispatcher's whole error result: a single text content item. -/
def callToolErrorResult (e : HttpClientError) : List Json :=
  [callToolErrorContent e]

/-! ## The tool catalog (`MCPProxy` constructor and list handler,
src/unnamed/part_008 lines 56-88 and 272-277) -/

/-- Generic JS-style record assignment on an association list: an existing
key keeps its position and takes the new value, a new key is appended. -/
def assocSet {α β : Type} [DecidableEq α] (m : List (α × β)) (k : α) (v : β) :
    List (α × β) :=
  if m.any (fun p => p.1 == k) then
    m.map (fun p => if p.1 = k then (k, v) else p)
  else m ++ [(k, v)]

/-- `MCPProxy.truncateToolName`: identity up to 64 characters, otherwise
`name.slice(0, 64)`.  (JS slices count UTF-16 code units; tool names are
ASCII, where code units and characters coincide.) -/
def truncateToolName (name : String) : String :=
  if name.length ≤ 64 then name else String.mk (name.toList.take 64)

/-- One method of a converted tool definition. -/
structure ToolMethod where
  name : String
  description : String
  inputSchema : Schema

/-- A tool definition grouping methods under one logical API name. -/
structure ToolDef where
  methods : List ToolMethod

/-- The registration sequence of the `MCPProxy` constructor: for each
`(toolName, def)` entry in order, for each method in order, the composed
name `` `${toolName}-${method.name}` `` with its method. -/
def toolRegistrations (tools : List (String × ToolDef)) :
    List (String × ToolMethod) :=
  tools.flatMap (fun p => p.2.methods.map (fun m => (p.1 ++ "-" ++ m.name, m)))

/-- part_008 lines 57-64: `toolMethodLookup`, keyed by the truncated
composed name, built by plain JS assignment (so a later registration
overwrites an earlier one that truncates to the same name). -/
def buildToolMethodLookup (tools : List (String × ToolDef)) :
    List (String × ToolMethod) :=
  (toolRegistrations tools).foldl
    (fun acc nm => assocSet acc (truncateToolName nm.1) nm.2) []

/-- The externally published tool names of the list-tools handler
(part_008 lines 75-85), in registration order. -/
def listToolNames (tools : List (String × ToolDef)) : List String :=
  (toolRegistrations tools).map (fun nm => truncateToolName nm.1)

/-! ## The page-operation `additionalProperties` override -/

/-- Modelled from the spec: the Schema Converter
(`OpenAPIToMCPConverter` in `src/openapi-mcp-server/openapi/parser.ts`)
is not under src/ — only its tests are.  Spec §4.1 describes a
table-driven override (operation id → override rule) targeting
resource-creation/update operations, and the date-properties tests pin
the targeted ids: `post-page` and `patch-page`. -/
def dynamicMapOverrideOps : List String := ["post-page", "patch-page"]

/-- Modelled from the spec: set `additionalProperties: true` on a schema
node (the recognized dynamic-map container). -/
def setAdditionalTrue : Schema → Schema
  | .node ty props items _ => .node ty props items (some true)
  | s => s

/-- Modelled from the spec: inside a generated input schema, relax the
`properties`-named dynamic-map container to accept arbitrary additional
properties; every other property is kept unchanged. -/
def overrideDynamicMapContainer : Schema → Schema
  | .node ty (some props) items addl =>
    .node ty
      (some (props.map (fun p =>
        if p.1 = "properties" then (p.1, setAdditionalTrue p.2) else p)))
      items addl
  | s => s

/-- Modelled from the spec: the converter's per-operation input-schema
post-processing — apply the dynamic-map override for exactly the
table-listed operation ids, leave every other operation's schema as
declared. -/
def convertOperationInputSchema (opId : String) (bodySchema : Schema) : Schema :=
  if dynamicMapOverrideOps.contains opId then
    overrideDynamicMapContainer bodySchema
  else bodySchema

/-- The declared properties of a schema node, for stating what the
override changed. -/
def schemaProp (s : Schema) (k : String) : Option Schema :=
  match s with
  | .node _ (some props) _ _ => List.lookup k props
  | _ => none

/-! ## Rich text and the block formatter
(src/unnamed/part_001 — `BlockFormatter`; the rich-text type is
src/unnamed/part_002 — `types.ts`) -/

/-- The annotation flags of a rich-text run (`types.ts`). -/
structure Annotations where
  bold : Bool
  italic : Bool
  strikethrough : Bool
  underline : Bool
  code : Bool
  color : String

/-- The discriminant of a rich-text run. -/
inductive RichTextKind where
  | text
  | mention
  | equation
deriving DecidableEq

/-- The `text` payload of a rich-text run: content plus optional link
URL (`text.link?.url`). -/
structure RichTextContent where
  content : String
  link : Option String

/-- A mention payload: the mentioned entity's kind and identifier
(`page`/`database`/`user` carry ids; `date`/`link_preview` do not). -/
inductive MentionPayload where
  | page (id : String)
  | database (id : String)
  | user (id : String)
  | date
  | linkPreview

/-- One rich-text run (`types.ts`). -/
structure RichText where
  kind : RichTextKind
  text : Option RichTextContent
  mention : Option MentionPayload
  annotations : Annotations
  plain_text : String
  href : Option String

/-- Modelled from the spec: `markdown-converter.ts` is not under src/ —
only its tests and its callers are.  Per spec §4.4 each annotation flag
independently wraps the run; the tests pin the markers `**` (bold), `*`
(italic), backticks (code) and their combinability.  Strikethrough and
underline markers (`~~`, `__`) follow the same wrapping discipline; no
claim depends on their exact spelling. -/
def annotateRun (a : Annotations) (s : String) : String :=
  let s1 := if a.code then "`" ++ s ++ "`" else s
  let s2 := if a.bold then "**" ++ s1 ++ "**" else s1
  let s3 := if a.italic then "*" ++ s2 ++ "*" else s2
  let s4 := if a.strikethrough then "~~" ++ s3 ++ "~~" else s3
  if a.underline then "__" ++ s4 ++ "__" else s4

/-- Modelled from the spec: a mention renders its plain text followed by
an inline reference tag to the mentioned entity (tags as used across the
repository's formatters: `[page:id]`, `[db:id]`, `[user:id]`). -/
def mentionTag : Option MentionPayload → String
  | some (.page id) => " [page:" ++ id ++ "]"
  | some (.database id) => " [db:" ++ id ++ "]"
  | some (.user id) => " [user:" ++ id ++ "]"
  | _ => ""

/-- Modelled from the spec (§4.4 rich-text-to-markup conversion): a text
run is its content wrapped by its annotation flags and, when a link is
present, by a markdown hyperlink; a mention is its plain text plus a
reference tag; an equation renders its plain text. -/
def renderRichText (r : RichText) : String :=
  match r.kind with
  | .text =>
    let content := match r.text with
      | some t => t.content
      | none => r.plain_text
    let s := annotateRun r.annotations content
    (match r.text with
     | some t =>
       match t.link with
       | some url => "[" ++ s ++ "](" ++ url ++ ")"
       | none => s
     | none => s)
  | .mention => r.plain_text ++ mentionTag r.mention
  | .equation => r.plain_text

/-- Modelled from the spec: `MarkdownConverter.convertRichTextToMarkdown`
concatenates the rendered runs (tests pin single-run and empty-array
behavior). -/
def convertRichTextToMarkdown : List RichText → String
  | [] => ""
  | r :: rs => renderRichText r ++ convertRichTextToMarkdown rs

/-- JS `String.prototype.trim`, as used by `formatParagraph`. -/
def jsTrim (s : String) : String :=
  String.mk (((s.toList.dropWhile Char.isWhitespace).reverse.dropWhile
    Char.isWhitespace).reverse)

/-- A plain rich-text run with all annotation flags off, as the tests
construct with `createRichText`. -/
def plainRichText (content : String) : List RichText :=
  [{ kind := .text
     text := some { content := content, link := none }
     mention := none
     annotations :=
       { bold := false, italic := false, strikethrough := false
         underline := false, code := false, color := "default" }
     plain_text := content
     href := none }]

/-- The payload of one Notion block, by block type (`types.ts`).  The
`other` constructor stands for any unrecognized `type` string. -/
inductive BlockData where
  | paragraph (richText : List RichText)
  | heading1 (richText : List RichText)
  | heading2 (richText : List RichText)
  | heading3 (richText : List RichText)
  | bulletedListItem (richText : List RichText)
  | numberedListItem (richText : List RichText)
  | toDo (richText : List RichText) (checked : Bool)
  | code (richText : List RichText) (language : String) (caption : List RichText)
  | quote (richText : List RichText)
  | callout (richText : List RichText) (iconEmoji : Option String)
  | toggle (richText : List RichText)
  | divider
  | table (tableWidth : Nat)
  | tableRow (cells : List (List RichText))
  | childPage (title : String)
  | childDatabase (title : String)
  | other (typeName : String)

/-- A Notion block: identifier plus typed payload. -/
structure NotionBlock where
  id : String
  data : BlockData

/-- The numbered-list counters of a `BlockFormatter` instance: a map from
indentation level to the next ordinal. -/
def NumberedCounters := List (Nat × Nat)

/-- `'  '.repeat(indentLevel)`. -/
def indentOf : Nat → String
  | 0 => ""
  | n + 1 => "  " ++ indentOf n

/-- Split a character list at a separator character (JS
`String.prototype.split` with a single-character separator). -/
def splitOnChar (sep : Char) : List Char → List (List Char)
  | [] => [[]]
  | c :: cs =>
    let r := splitOnChar sep cs
    if c == sep then [] :: r
    else
      match r with
      | h :: t => (c :: h) :: t
      | [] => [[c]]

/-- Join strings with a separator (JS `Array.prototype.join`). -/
def joinWith (sep : String) : List String → String
  | [] => ""
  | [x] => x
  | x :: xs => x ++ sep ++ joinWith sep xs

/-- `BlockFormatter.formatParagraph`: empty or whitespace-only text
renders as the empty string (no line, no block tag); otherwise the text
with indent and block tag. -/
def formatParagraph (richText : List RichText) (blockId indent : String) : String :=
  let text := convertRichTextToMarkdown richText
  if jsTrim text == "" then "" else indent ++ text ++ " " ++ blockId

/-- `BlockFormatter.formatHeading` for a given level (the `rich_text`
content is always present in the typed model, so the `[Heading]`
fallback branch of the source is unreachable here). -/
def formatHeading (level : Nat) (richText : List RichText) (blockId : String) : String :=
  let hashes := String.mk (List.replicate level '#')
  hashes ++ " " ++ convertRichTextToMarkdown richText ++ " " ++ blockId

/-- `BlockFormatter.formatToDo`. -/
def formatToDo (richText : List RichText) (checked : Bool)
    (blockId indent : String) : String :=
  let checkbox := if checked then "[x]" else "[ ]"
  indent ++ "- " ++ checkbox ++ " " ++ convertRichTextToMarkdown richText ++ " " ++ blockId

/-- `BlockFormatter.formatBlock`: dispatch on the block type.  The
numbered-list counters are threaded explicitly (they are instance state
in the source); every branch except `numbered_list_item` returns them
unchanged. -/
def formatBlock (counters : NumberedCounters) (block : NotionBlock)
    (indentLevel : Nat) : String × NumberedCounters :=
  let indent := indentOf indentLevel
  let blockId := "[block:" ++ block.id ++ "]"
  match block.data with
  | .paragraph rt => (formatParagraph rt blockId indent, counters)
  | .heading1 rt => (formatHeading 1 rt blockId, counters)
  | .heading2 rt => (formatHeading 2 rt blockId, counters)
  | .heading3 rt => (formatHeading 3 rt blockId, counters)
  | .bulletedListItem rt =>
    (indent ++ "- " ++ convertRichTextToMarkdown rt ++ " " ++ blockId, counters)
  | .numberedListItem rt =>
    let m := if (List.lookup indentLevel counters).isNone then
        assocSet counters indentLevel 1 else counters
    let num := (List.lookup indentLevel m).getD 1
    let m2 := assocSet m indentLevel (num + 1)
    (indent ++ toString num ++ ". " ++ convertRichTextToMarkdown rt ++ " " ++ blockId, m2)
  | .toDo rt checked => (formatToDo rt checked blockId indent, counters)
  | .code rt language caption =>
    let codeText := convertRichTextToMarkdown rt
    let captionText := if caption.length > 0 then
        "\n*" ++ convertRichTextToMarkdown caption ++ "*" else ""
    ("```" ++ language ++ "\n" ++ codeText ++ "\n``` " ++ blockId ++ captionText, counters)
  | .quote rt =>
    let text := convertRichTextToMarkdown rt
    let lines := (splitOnChar '\n' text.toList).map (fun l => "> " ++ String.mk l)
    (joinWith "\n" lines ++ " " ++ blockId, counters)
  | .callout rt icon =>
    let iconText := icon.getD "💡"
    ("> " ++ iconText ++ " " ++ convertRichTextToMarkdown rt ++ " " ++ blockId, counters)
  | .toggle rt =>
    (indent ++ "▸ " ++ convertRichTextToMarkdown rt ++ " " ++ blockId, counters)
  | .divider => ("---", counters)
  | .table w => ("[Table: " ++ toString w ++ " columns] " ++ blockId, counters)
  | .tableRow cells =>
    ("| " ++ joinWith " | " (cells.map convertRichTextToMarkdown) ++ " |", counters)
  | .childPage title => (indent ++ "📄 " ++ title ++ " " ++ blockId, counters)
  | .childDatabase title => (indent ++ "🗂 " ++ title ++ " " ++ blockId, counters)
  | .other typeName => (indent ++ "[" ++ typeName ++ "] " ++ blockId ++ "\n", counters)

/-! ## Pipeline composition and statement helpers -/

/-- The per-call argument reconciliation pipeline in execution order: the
dispatcher coerces primitives against the tool input schema (part_008
line 104), then the executor recovers stringified structures against the
operation's request-body schema (http-client.ts line 197). -/
def reconcileParams (env : SchemaEnv) (fuel : Nat) (inputSchema : Schema)
    (op : Operation) (params : List (String × Json)) : List (String × Json) :=
  parseStringifiedParamsOp env fuel (coerceParamsToSchemaTypes params inputSchema) op

/-- Coercion-stability of a whole argument set against the tool input
schema, mirroring `coerceParamsToSchemaTypes`' own traversal. -/
def typedOkParams (params : List (String × Json)) (schema : Schema) : Bool :=
  match schema with
  | .node _ (some ps) _ _ =>
    params.all (fun kv =>
      match kv.2 with
      | .null => true
      | v =>
        match List.lookup kv.1 ps with
        | some psch => typedOk v psch
        | none => true)
  | _ => true

/-- Constructor discriminant of a JSON value (used to state that two
values differ). -/
def jsonCtorIdx : Json → Nat
  | .null => 0
  | .bool _ => 1
  | .num _ => 2
  | .str _ => 3
  | .arr _ => 4
  | .obj _ => 5

/-- Wording of the claim, for the refinement comparison only (not from
the source): a _valid integer literal_ is an optional sign followed by
one or more decimal digits and nothing else. -/
def isValidIntegerLiteral (s : String) : Bool :=
  let p := splitSign s.toList
  let q := splitLeadingDigits p.2
  !q.1.isEmpty && q.2.isEmpty

/-- Wording of the claim, for the refinement comparison only (not from
the source): the error payload the claim prescribes —
`{"status":"error"}` spread with the remote body's fields when the body
is an object, `{"status":"error","data": body}` otherwise. -/
def claimedErrorPayload (body : Json) : Json :=
  match body with
  | .obj fs =>
    .obj (fs.foldl (fun acc kv => objSpreadInsert acc kv.1 kv.2)
      [("status", .str "error")])
  | _ => .obj [("status", .str "error"), ("data", body)]

/-! ## Theorems -/

theorem lookup_overrideMap (props : List (String × Schema)) (k : String) :
    List.lookup k (props.map (fun p =>
      if p.1 = "properties" then (p.1, setAdditionalTrue p.2) else p)) =
    if k = "properties" then (List.lookup k props).map setAdditionalTrue
    else List.lookup k props := by
  induction props with
  | nil => by_cases h : k = "properties" <;> simp [h]
  | cons p rest ih =>
    obtain ⟨pk, pv⟩ := p
    simp only [List.map_cons]
    by_cases hp : pk = "properties"
    · subst hp
      rw [if_pos rfl]
      by_cases hk : k = "properties"
      · subst hk
        simp [List.lookup]
      · have hbk : (k == "properties") = false := by simp [hk]
        simp [List.lookup, hbk, ih, hk]
    · rw [if_neg hp]
      by_cases hk : k = pk
      · subst hk
        simp [List.lookup, hp]
      · have hbk2 : (k == pk) = false := by simp [hk]
        simp [List.lookup, hbk2, ih]

/-- Claim C5: the schema conversion overrides `additionalProperties` from
`false` to `true` on the `properties` dynamic-map container for exactly
the table-listed page operations (`post-page`, `patch-page`); every other
operation's generated input schema keeps its declared value — indeed the
whole schema — unchanged, and even for targeted operations every property
other than the `properties` container is untouched. -/
theorem converter_additionalProperties_override :
    (∀ opId sch, opId ∉ dynamicMapOverrideOps →
      convertOperationInputSchema opId sch = sch) ∧
    (∀ opId ty props items addl cty cprops citems caddl,
      opId ∈ dynamicMapOverrideOps →
      List.lookup "properties" props = some (.node cty cprops citems caddl) →
      schemaProp (convertOperationInputSchema opId (.node ty (some props) items addl))
          "properties" = some (.node cty cprops citems (some true)) ∧
      ∀ k, k ≠ "properties" →
        schemaProp (convertOperationInputSchema opId (.node ty (some props) items addl)) k =
          List.lookup k props) := by
  constructor
  · intro opId sch h
    simp [convertOperationInputSchema, h]
  · intro opId ty props items addl cty cprops citems caddl hop hlook
    have hcon : dynamicMapOverrideOps.contains opId = true := by simpa using hop
    refine ⟨?_, ?_⟩
    · simp only [convertOperationInputSchema, if_pos hcon, overrideDynamicMapContainer,
        schemaProp, lookup_overrideMap, if_pos rfl, hlook, Option.map_some]
      rfl
    · intro k hk
      simp only [convertOperationInputSchema, if_pos hcon, overrideDynamicMapContainer,
        schemaProp, lookup_overrideMap, if_neg hk]

/-- Witness for C5 at the schemas of the date-properties tests: the
`post-page` container flips to `additionalProperties: true`; the
`get-users` schema is returned identically. -/
theorem converter_additionalProperties_override_witness :
    ("post-page" ∈ dynamicMapOverrideOps ∧
      schemaProp (convertOperationInputSchema "post-page"
        (Schema.node (some .object)
          (some [("parent", Schema.ref "par"),
                 ("properties",
                  Schema.node (some .object) (some [("title", Schema.ref "ti")])
                    none (some false))])
          none none)) "properties" =
        some (Schema.node (some .object) (some [("title", Schema.ref "ti")])
          none (some true))) ∧
    ("get-users" ∉ dynamicMapOverrideOps ∧
      convertOperationInputSchema "get-users"
        (Schema.node (some .object)
          (some [("properties",
                  Schema.node (some .object) (some [("name", Schema.ref "nm")])
                    none (some false))])
          none none) =
        Schema.node (some .object)
          (some [("properties",
                  Schema.node (some .object) (some [("name", Schema.ref "nm")])
                    none (some false))])
          none none) :=
  ⟨⟨by decide,
    (converter_additionalProperties_override.2 "post-page" (some .object)
      [("parent", Schema.ref "par"),
       ("properties",
        Schema.node (some .object) (some [("title", Schema.ref "ti")]) none (some false))]
      none none (some .object) (some [("title", Schema.ref "ti")]) none (some false)
      (by decide) rfl).1⟩,
   ⟨by decide,
    converter_additionalProperties_override.1 "get-users" _ (by decide)⟩⟩

theorem truncateToolName_length (n : String) : (truncateToolName n).length ≤ 64 := by
  unfold truncateToolName
  by_cases h : n.length ≤ 64
  · simp [h]
  · simp only [h, if_false]
    show (n.toList.take 64).length ≤ 64
    simp [List.length_take]

/-- Claim C6: a composed tool name longer than 64 characters is published
as exactly its first 64 characters; a composed name of at most 64
characters is published as-is; hence every name the list-tools handler
publishes has length at most 64. -/
theorem published_toolName_truncation :
    (∀ n : String, 64 < n.length → truncateToolName n = String.mk (n.toList.take 64)) ∧
    (∀ n : String, n.length ≤ 64 → truncateToolName n = n) ∧
    (∀ tools (name : String), name ∈ listToolNames tools → name.length ≤ 64) := by
  refine ⟨?_, ?_, ?_⟩
  · intro n h
    unfold truncateToolName
    rw [if_neg (by omega)]
  · intro n h
    unfold truncateToolName
    rw [if_pos h]
  · intro tools name hmem
    unfold listToolNames at hmem
    obtain ⟨nm, _, rfl⟩ := List.mem_map.mp hmem
    exact truncateToolName_length _

/-- Witness for C6: a 70-character name truncates to its first 64
characters, and a published name from a one-method catalog is within the
limit. -/
theorem published_toolName_truncation_witness :
    (64 < (String.mk (List.replicate 70 'a')).length ∧
      truncateToolName (String.mk (List.replicate 70 'a')) =
        String.mk ((String.mk (List.replicate 70 'a')).toList.take 64)) ∧
    ("API-post-page" ∈ listToolNames [("API", ⟨[⟨"post-page", "d", .ref "s"⟩]⟩)] ∧
      "API-post-page".length ≤ 64) :=
  ⟨⟨by decide, published_toolName_truncation.1 _ (by decide)⟩,
   ⟨by decide,
    published_toolName_truncation.2.2 [("API", ⟨[⟨"post-page", "d", .ref "s"⟩]⟩)] _
      (by decide)⟩⟩

theorem assocSet_map_fst {α β : Type} [DecidableEq α] (m : List (α × β)) (k : α) (v : β) :
    (assocSet m k v).map Prod.fst =
      if m.any (fun p => p.1 == k) then m.map Prod.fst else m.map Prod.fst ++ [k] := by
  unfold assocSet
  by_cases h : m.any (fun p => p.1 == k)
  · rw [if_pos h, if_pos h, List.map_map]
    apply List.map_congr_left
    intro p _
    obtain ⟨pk, pv⟩ := p
    by_cases hp : pk = k
    · simp [hp]
    · simp [hp]
  · rw [if_neg h, if_neg h]
    simp

theorem assocSet_nodup_keys {α β : Type} [DecidableEq α] (m : List (α × β)) (k : α) (v : β)
    (h : (m.map Prod.fst).Nodup) : ((assocSet m k v).map Prod.fst).Nodup := by
  rw [assocSet_map_fst]
  by_cases hc : m.any (fun p => p.1 == k)
  · rwa [if_pos hc]
  · rw [if_neg hc]
    have hk : k ∉ m.map Prod.fst := by
      intro hmem
      obtain ⟨p, hp, hfst⟩ := List.mem_map.mp hmem
      apply hc
      exact List.any_eq_true.mpr ⟨p, hp, by simp [hfst]⟩
    simp [List.nodup_append, h, hk]

theorem lookup_map_overwrite_self {α β : Type} [DecidableEq α] [LawfulBEq α]
    (m : List (α × β)) (k : α) (v : β) (h : m.any (fun p => p.1 == k) = true) :
    List.lookup k (m.map (fun p => if p.1 = k then (k, v) else p)) = some v := by
  induction m with
  | nil => simp at h
  | cons p rest ih =>
    obtain ⟨pk, pv⟩ := p
    simp only [List.map_cons]
    by_cases hp : pk = k
    · rw [if_pos hp]
      simp [List.lookup]
    · rw [if_neg hp]
      have hb : (k == pk) = false := by
        simp only [beq_eq_false_iff_ne, ne_eq]
        exact fun hh => hp hh.symm
      simp only [List.lookup, hb]
      apply ih
      simp only [List.any_cons, Bool.or_eq_true] at h
      rcases h with h1 | h2
      · exact absurd (by simpa using h1) hp
      · exact h2

theorem lookup_assocSet_self {α β : Type} [DecidableEq α] [LawfulBEq α]
    (m : List (α × β)) (k : α) (v : β) :
    List.lookup k (assocSet m k v) = some v := by
  unfold assocSet
  by_cases h : m.any (fun p => p.1 == k)
  · rw [if_pos h]
    exact lookup_map_overwrite_self m k v h
  · rw [if_neg h]
    induction m with
    | nil => simp [List.lookup]
    | cons p rest ih =>
      obtain ⟨pk, pv⟩ := p
      have hp : ¬ pk = k := by
        intro hh
        exact h (List.any_eq_true.mpr ⟨(pk, pv), List.mem_cons_self _ _, by simp [hh]⟩)
      have hb : (k == pk) = false := by
        simp only [beq_eq_false_iff_ne, ne_eq]
        exact fun hh => hp hh.symm
      simp only [List.cons_append, List.lookup, hb]
      apply ih
      intro hany
      apply h
      simp only [List.any_cons, Bool.or_eq_true]
      right
      exact hany

theorem lookup_map_overwrite_ne {α β : Type} [DecidableEq α] [LawfulBEq α]
    (m : List (α × β)) (k : α) (v : β) (k2 : α) (hne : k2 ≠ k) :
    List.lookup k2 (m.map (fun p => if p.1 = k then (k, v) else p)) = List.lookup k2 m := by
  induction m with
  | nil => simp
  | cons p rest ih =>
    obtain ⟨pk, pv⟩ := p
    simp only [List.map_cons]
    by_cases hp : pk = k
    · rw [if_pos hp]
      have hb : (k2 == pk) = false := by
        simp only [beq_eq_false_iff_ne, ne_eq]
        exact fun hh => hne (hh.trans hp)
      have hb2 : (k2 == k) = false := by simp [hne]
      simp [List.lookup, hb, hb2, ih]
    · rw [if_neg hp]
      by_cases hk2 : k2 = pk
      · simp [List.lookup, hk2]
      · have hb : (k2 == pk) = false := by simp [hk2]
        simp [List.lookup, hb, ih]

theorem lookup_assocSet_ne {α β : Type} [DecidableEq α] [LawfulBEq α]
    (m : List (α × β)) (k : α) (v : β) (k2 : α) (hne : k2 ≠ k) :
    List.lookup k2 (assocSet m k v) = List.lookup k2 m := by
  unfold assocSet
  by_cases h : m.any (fun p => p.1 == k)
  · rw [if_pos h]
    exact lookup_map_overwrite_ne m k v k2 hne
  · rw [if_neg h]
    induction m with
    | nil =>
      have hb : (k2 == k) = false := by simp [hne]
      simp [List.lookup, hb]
    | cons p rest ih =>
      obtain ⟨pk, pv⟩ := p
      by_cases hk2 : k2 = pk
      · simp [List.lookup, hk2]
      · have hb : (k2 == pk) = false := by simp [hk2]
        simp only [List.cons_append, List.lookup, hb]
        apply ih
        intro hany
        apply h
        simp only [List.any_cons, Bool.or_eq_true]
        right
        exact hany

theorem buildFold_nodup_keys (regs : List (String × ToolMethod)) :
    ((regs.foldl (fun acc nm => assocSet acc (truncateToolName nm.1) nm.2)
      []).map Prod.fst).Nodup := by
  induction regs using List.reverseRecOn with
  | nil => simp
  | append_singleton regs x ih =>
    rw [List.foldl_append]
    exact assocSet_nodup_keys _ _ _ ih

theorem buildFold_lookup (regs : List (String × ToolMethod)) (name : String) :
    List.lookup name
      (regs.foldl (fun acc nm => assocSet acc (truncateToolName nm.1) nm.2) []) =
    ((regs.filter (fun nm => truncateToolName nm.1 == name)).getLast?).map Prod.snd := by
  induction regs using List.reverseRecOn with
  | nil => simp
  | append_singleton regs x ih =>
    rw [List.foldl_append, List.filter_append]
    by_cases h : truncateToolName x.1 = name
    · have hfilter : List.filter (fun nm => truncateToolName nm.1 == name) [x] = [x] := by
        simp [List.filter, h]
      rw [List.foldl_cons, List.foldl_nil, hfilter, List.getLast?_concat, h,
        lookup_assocSet_self]
      rfl
    · have hb : (truncateToolName x.1 == name) = false := by simp [h]
      have hfilter : List.filter (fun nm => truncateToolName nm.1 == name) [x] = [] := by
        simp [List.filter, hb]
      rw [List.foldl_cons, List.foldl_nil, hfilter, List.append_nil,
        lookup_assocSet_ne _ _ _ _ (fun hh => h hh.symm)]
      exact ih

/-- Claim C7: after the `MCPProxy` constructor builds the lookup, the
truncated tool names are unique (association-list keys have no
duplicates), and each name maps to the _last_ registered method whose
composed name truncates to it — last write wins, with no disambiguation
suffix (the key is exactly the truncated composed name). -/
theorem toolMethodLookup_unique_last_wins (tools : List (String × ToolDef)) :
    ((buildToolMethodLookup tools).map Prod.fst).Nodup ∧
    (∀ name : String,
      List.lookup name (buildToolMethodLookup tools) =
        (((toolRegistrations tools).filter
          (fun nm => truncateToolName nm.1 == name)).getLast?).map Prod.snd) := by
  constructor
  · exact buildFold_nodup_keys _
  · intro name
    exact buildFold_lookup _ name

/-- Claim C9: the checked to-do block of the block-formatter tests
renders exactly as `- [x] Completed task [block:pqr678]`, and the same
block unchecked renders the `[ ]` checkbox. -/
theorem formatToDo_checked_exact :
    formatBlock ([] : NumberedCounters)
      { id := "pqr678", data := .toDo (plainRichText "Completed task") true } 0 =
      ("- [x] Completed task [block:pqr678]", ([] : NumberedCounters)) ∧
    formatBlock ([] : NumberedCounters)
      { id := "pqr678", data := .toDo (plainRichText "Completed task") false } 0 =
      ("- [ ] Completed task [block:pqr678]", ([] : NumberedCounters)) := by
  constructor <;> rfl

/-- Claim C10: a paragraph block whose rich text converts to an empty or
whitespace-only string formats to the empty string — no output line and
no block reference tag — at every indent level, leaving the numbered
counters untouched. -/
theorem formatParagraph_blank_empty (id : String) (rt : List RichText) (lvl : Nat)
    (counters : NumberedCounters)
    (h : jsTrim (convertRichTextToMarkdown rt) = "") :
    formatBlock counters { id := id, data := .paragraph rt } lvl = ("", counters) := by
  simp [formatBlock, formatParagraph, h]

/-- Witness for C10: a whitespace-only paragraph at indent level 2
formats to the empty string. -/
theorem formatParagraph_blank_empty_witness :
    jsTrim (convertRichTextToMarkdown (plainRichText "   ")) = "" ∧
    formatBlock ([] : NumberedCounters)
      { id := "stu901", data := .paragraph (plainRichText "   ") } 2 =
      ("", ([] : NumberedCounters)) :=
  ⟨by decide, formatParagraph_blank_empty "stu901" (plainRichText "   ") 2 [] (by decide)⟩

/-- Claim C8: for a non-multipart dispatch, a non-empty body parameter
set yields the `Content-Type: application/json` header with the body
passed through, and an empty body parameter set suppresses the
Content-Type header (`null`) and passes `undefined` as the body; a
multipart dispatch instead uses the boundary-bearing headers of the
multipart encoder. -/
theorem executeOperation_content_negotiation :
    ∀ env fuel op params,
      (op.fileParams = [] →
        (nonMultipartBodyParams env fuel op params ≠ [] →
          (buildRequestPlan env fuel op params).header = .json ∧
          (buildRequestPlan env fuel op params).bodyArg =
            some (.fields (nonMultipartBodyParams env fuel op params))) ∧
        (nonMultipartBodyParams env fuel op params = [] →
          (buildRequestPlan env fuel op params).header = .suppressed ∧
          (buildRequestPlan env fuel op params).bodyArg = none)) ∧
      (op.fileParams ≠ [] →
        (buildRequestPlan env fuel op params).header = .multipart ∧
        (buildRequestPlan env fuel op params).bodyArg = some .multipartForm) := by
  intro env fuel op params
  constructor
  · intro hfp
    have hempty : op.fileParams.isEmpty = true := by simp [hfp]
    constructor
    · intro hne
      have hbe : (nonMultipartBodyParams env fuel op params).isEmpty = false := by
        cases hcase : nonMultipartBodyParams env fuel op params with
        | nil => exact absurd hcase hne
        | cons a l => simp
      constructor <;> simp [buildRequestPlan, hempty, hbe]
    · intro he
      have hbe : (nonMultipartBodyParams env fuel op params).isEmpty = true := by simp [he]
      constructor <;> simp [buildRequestPlan, hempty, hbe, he]
  · intro hfp
    have hempty : op.fileParams.isEmpty = false := by
      cases hcase : op.fileParams with
      | nil => exact absurd hcase hfp
      | cons a l => simp
    constructor <;> simp [buildRequestPlan, hempty]

/-- Witness for C8: a body argument beside a path parameter produces the
JSON content type; a path-parameter-only call suppresses the header and
sends no body; a file-upload operation uses multipart headers. -/
theorem executeOperation_content_negotiation_witness :
    (Operation.fileParams ⟨"createPage", [⟨"page_id", .path⟩], some none, []⟩ = [] ∧
     nonMultipartBodyParams [] 1 ⟨"createPage", [⟨"page_id", .path⟩], some none, []⟩
       [("page_id", .str "p"), ("title", .str "t")] ≠ [] ∧
     (buildRequestPlan [] 1 ⟨"createPage", [⟨"page_id", .path⟩], some none, []⟩
       [("page_id", .str "p"), ("title", .str "t")]).header = .json) ∧
    (nonMultipartBodyParams [] 1 ⟨"createPage", [⟨"page_id", .path⟩], some none, []⟩
       [("page_id", .str "p")] = [] ∧
     (buildRequestPlan [] 1 ⟨"createPage", [⟨"page_id", .path⟩], some none, []⟩
       [("page_id", .str "p")]).header = .suppressed ∧
     (buildRequestPlan [] 1 ⟨"createPage", [⟨"page_id", .path⟩], some none, []⟩
       [("page_id", .str "p")]).bodyArg = none) ∧
    (Operation.fileParams ⟨"upload", [], some none, ["file"]⟩ ≠ [] ∧
     (buildRequestPlan [] 1 ⟨"upload", [], some none, ["file"]⟩
       [("file", .str "/tmp/x")]).header = .multipart) :=
  ⟨⟨by decide, by decide,
    (((executeOperation_content_negotiation [] 1 _ _).1 (by decide)).1 (by decide)).1⟩,
   ⟨by decide,
    (((executeOperation_content_negotiation [] 1 _ _).1 (by decide)).2 (by decide)).1,
    (((executeOperation_content_negotiation [] 1 _ _).1 (by decide)).2 (by decide)).2⟩,
   ⟨by decide,
    ((executeOperation_content_negotiation [] 1 _ _).2 (by decide)).1⟩⟩

/-- Counterexample to C3 as stated: for a remote 404 body that happens to
contain a nested `response.data` member, the dispatcher does _not_ spread
the remote body's own fields — `error.data?.response?.data ?? error.data
?? \x7b\x7d` first unwraps the nested value, so the payload is
`status`/`m` rather than `status`/`response`/`x` as the claim
prescribes. -/
theorem httpError_payload_counterexample :
    callToolErrorContent (httpClientErrorOfResponse
      { status := 404, statusText := "Not Found"
        data := .obj [("response", .obj [("data", .obj [("m", .bool true)])]),
                      ("x", .bool false)]
        headers := [] }) ≠
    claimedErrorPayload
      (.obj [("response", .obj [("data", .obj [("m", .bool true)])]),
             ("x", .bool false)]) := by
  decide

/-- Claim C3 (amended): an HTTP-error response is rethrown as a typed
`HttpClientError` carrying the status code, parsed remote body and remote
headers, and the dispatcher answers with a single text content item whose
JSON payload is `\x7b"status":"error"\x7d` spread with the fields of the
dispatch value D — where D is the remote body's nested `response.data`
member when the body is an object carrying a non-null one, otherwise the
body itself when non-null, otherwise `\x7b\x7d`; an array D spreads as
index-keyed entries; a non-object D is wrapped as
`\x7b"status":"error","data":D\x7d` — never an uncaught exception. -/
theorem httpError_structured_result (r : AxiosErrorResponse) :
    (httpClientErrorOfResponse r).status = r.status ∧
    (httpClientErrorOfResponse r).data = r.data ∧
    (httpClientErrorOfResponse r).headers = r.headers ∧
    callToolErrorResult (httpClientErrorOfResponse r) =
      [callToolErrorContent (httpClientErrorOfResponse r)] ∧
    (r.data = .null → callToolErrorData r.data = .obj []) ∧
    (∀ fs fs2 v, r.data = .obj fs → List.lookup "response" fs = some (.obj fs2) →
      List.lookup "data" fs2 = some v → v ≠ .null → callToolErrorData r.data = v) ∧
    (∀ fs, r.data = .obj fs → List.lookup "response" fs = none →
      callToolErrorData r.data = r.data) ∧
    ((∀ fs, r.data ≠ Json.obj fs) → r.data ≠ .null → callToolErrorData r.data = r.data) ∧
    (∀ fs, callToolErrorData r.data = .obj fs →
      callToolErrorContent (httpClientErrorOfResponse r) =
        .obj (fs.foldl (fun acc kv => objSpreadInsert acc kv.1 kv.2)
          [("status", Json.str "error")])) ∧
    (∀ xs, callToolErrorData r.data = .arr xs →
      callToolErrorContent (httpClientErrorOfResponse r) =
        .obj ((jsArrayEntries 0 xs).foldl (fun acc kv => objSpreadInsert acc kv.1 kv.2)
          [("status", Json.str "error")])) ∧
    (jsTypeofObjectNotNull (callToolErrorData r.data) = false →
      callToolErrorData r.data ≠ .null →
      callToolErrorContent (httpClientErrorOfResponse r) =
        .obj [("status", Json.str "error"), ("data", callToolErrorData r.data)]) := by
  refine ⟨rfl, rfl, rfl, rfl, ?_, ?_, ?_, ?_, ?_, ?_, ?_⟩
  · intro h
    simp [callToolErrorData, h]
  · intro fs fs2 v hdata hresp hdat hne
    cases v with
    | null => exact absurd rfl hne
    | bool b => simp [callToolErrorData, hdata, hresp, hdat]
    | num n => simp [callToolErrorData, hdata, hresp, hdat]
    | str s => simp [callToolErrorData, hdata, hresp, hdat]
    | arr xs => simp [callToolErrorData, hdata, hresp, hdat]
    | obj gs => simp [callToolErrorData, hdata, hresp, hdat]
  · intro fs hdata hresp
    simp [callToolErrorData, hdata, hresp]
  · intro hobj hnull
    cases hd : r.data with
    | null => exact absurd hd hnull
    | bool b => simp [callToolErrorData, hd]
    | num n => simp [callToolErrorData, hd]
    | str s => simp [callToolErrorData, hd]
    | arr xs => simp [callToolErrorData, hd]
    | obj fs => exact absurd hd (hobj fs)
  · intro fs h
    simp [callToolErrorContent, httpClientErrorOfResponse, h, statusErrorPayload]
  · intro xs h
    simp [callToolErrorContent, httpClientErrorOfResponse, h, statusErrorPayload]
  · intro hnotobj hnotnull
    cases hd : callToolErrorData r.data with
    | null => exact absurd hd hnotnull
    | bool b => simp [callToolErrorContent, httpClientErrorOfResponse, hd, statusErrorPayload]
    | num n => simp [callToolErrorContent, httpClientErrorOfResponse, hd, statusErrorPayload]
    | str s => simp [callToolErrorContent, httpClientErrorOfResponse, hd, statusErrorPayload]
    | arr xs => rw [hd] at hnotobj; simp [jsTypeofObjectNotNull] at hnotobj
    | obj fs => rw [hd] at hnotobj; simp [jsTypeofObjectNotNull] at hnotobj

/-- Witness for C3: a 404 whose body is a plain object (no nested
`response.data`) spreads its fields after `status:"error"`; a 500 with a
bare string body wraps it under `data`. -/
theorem httpError_structured_result_witness :
    ((httpClientErrorOfResponse
        { status := 404, statusText := "Not Found"
          data := .obj [("message", .str "Could not find page")]
          headers := [("content-type", "application/json")] }).status = 404 ∧
     ((Json.obj [("message", Json.str "Could not find page")]) ≠ Json.null) ∧
     List.lookup "response" [("message", Json.str "Could not find page")] = none ∧
     callToolErrorContent (httpClientErrorOfResponse
        { status := 404, statusText := "Not Found"
          data := .obj [("message", .str "Could not find page")]
          headers := [("content-type", "application/json")] }) =
       .obj [("status", .str "error"), ("message", .str "Could not find page")]) ∧
    (jsTypeofObjectNotNull (callToolErrorData (Json.str "oops")) = false ∧
     callToolErrorContent (httpClientErrorOfResponse
        { status := 500, statusText := "", data := .str "oops", headers := [] }) =
       .obj [("status", .str "error"), ("data", .str "oops")]) := by
  constructor
  · refine ⟨(httpError_structured_result _).1, by decide, by decide, ?_⟩
    have h := (httpError_structured_result
      { status := 404, statusText := "Not Found"
        data := .obj [("message", .str "Could not find page")]
        headers := [("content-type", "application/json")] }).2.2.2.2.2.2.2.2.1
      [("message", Json.str "Could not find page")] (by decide)
    rw [h]
    decide
  · refine ⟨by decide, ?_⟩
    have h := (httpError_structured_result
      { status := 500, statusText := "", data := .str "oops",
        headers := [] }).2.2.2.2.2.2.2.2.2.2 (by decide) (by decide)
    rw [h]
    decide

/-- Claim C1: when the request-body schema resolves to an object node
with declared properties, a string argument whose resolved target schema
declares `object` or `array` is replaced by its JSON parse result exactly
when that result is a non-null object/array, is left untouched (with no
failure — the function is total) when parsing fails, and arguments whose
target schema is not structured, or which are absent from the schema,
pass through unchanged; with no applicable body schema, all arguments
pass through unchanged. -/
theorem parseStringifiedParams_recovery :
    (∀ env fuel params, parseStringifiedParams env fuel params none = params) ∧
    (∀ env fuel params sch props it ad,
      resolveSchema env fuel sch = some (.node (some .object) (some props) it ad) →
      ∀ k v, (k, v) ∈ params →
        ((∀ s, v = Json.str s →
          ∀ psch rps, List.lookup k props = some psch →
            resolveSchema env fuel psch = some rps → resolvedTypeIsStructured rps = true →
            ((∀ p, jsonParse s = some p → jsTypeofObjectNotNull p = true →
               (k, p) ∈ parseStringifiedParams env fuel params (some sch)) ∧
             (jsonParse s = none →
               (k, Json.str s) ∈ parseStringifiedParams env fuel params (some sch)))) ∧
         (∀ psch rps, List.lookup k props = some psch →
            resolveSchema env fuel psch = some rps → resolvedTypeIsStructured rps = false →
            (k, v) ∈ parseStringifiedParams env fuel params (some sch)) ∧
         (List.lookup k props = none →
            (k, v) ∈ parseStringifiedParams env fuel params (some sch)))) := by
  constructor
  · intro env fuel params
    simp [parseStringifiedParams]
  · intro env fuel params sch props it ad hres k v hmem
    have hmap : parseStringifiedParams env fuel params (some sch) =
        params.map (parseStringifiedEntry env fuel props) := by
      simp [parseStringifiedParams, hres]
    refine ⟨?_, ?_, ?_⟩
    · intro s hv psch rps hlook hrs hstruct
      subst hv
      constructor
      · intro p hparse htype
        have hentry : parseStringifiedEntry env fuel props (k, Json.str s) = (k, p) := by
          simp [parseStringifiedEntry, hlook, hrs, hstruct, hparse, htype]
        rw [hmap]
        exact hentry ▸ List.mem_map_of_mem _ hmem
      · intro hparse
        have hentry : parseStringifiedEntry env fuel props (k, Json.str s) =
            (k, Json.str s) := by
          simp [parseStringifiedEntry, hlook, hrs, hstruct, hparse]
        rw [hmap]
        exact hentry ▸ List.mem_map_of_mem _ hmem
    · intro psch rps hlook hrs hstruct
      have hentry : parseStringifiedEntry env fuel props (k, v) = (k, v) := by
        cases v <;> simp [parseStringifiedEntry, hlook, hrs, hstruct]
      rw [hmap]
      exact hentry ▸ List.mem_map_of_mem _ hmem
    · intro hlook
      have hentry : parseStringifiedEntry env fuel props (k, v) = (k, v) := by
        cases v <;> simp [parseStringifiedEntry, hlook]
      rw [hmap]
      exact hentry ▸ List.mem_map_of_mem _ hmem
/-- Witness for C1 at the spec's own examples: a stringified parent
object is parsed; an invalid-JSON string stays a string; an
integer-schema argument and a schema-absent argument pass through. -/
theorem parseStringifiedParams_recovery_witness :
    (("parent", Json.str "\x7b\"page_id\":\"x\"\x7d") ∈
       ([("parent", Json.str "\x7b\"page_id\":\"x\"\x7d"),
         ("note", Json.str "hello"), ("count", Json.str "5")] :
         List (String × Json)) ∧
     jsonParse "\x7b\"page_id\":\"x\"\x7d" = some (Json.obj [("page_id", Json.str "x")]) ∧
     ("parent", Json.obj [("page_id", Json.str "x")]) ∈
       parseStringifiedParams [] 1
         [("parent", Json.str "\x7b\"page_id\":\"x\"\x7d"),
          ("note", Json.str "hello"), ("count", Json.str "5")]
         (some (Schema.node (some .object)
           (some [("parent", Schema.node (some .object) none none none),
                  ("count", Schema.node (some .integer) none none none)]) none none))) ∧
    (jsonParse "not valid json \x7b\x7b\x7b" = none ∧
     ("parent", Json.str "not valid json \x7b\x7b\x7b") ∈
       parseStringifiedParams [] 1
         [("parent", Json.str "not valid json \x7b\x7b\x7b")]
         (some (Schema.node (some .object)
           (some [("parent", Schema.node (some .object) none none none),
                  ("count", Schema.node (some .integer) none none none)]) none none))) ∧
    (("count", Json.str "5") ∈
       parseStringifiedParams [] 1
         [("parent", Json.str "\x7b\"page_id\":\"x\"\x7d"),
          ("note", Json.str "hello"), ("count", Json.str "5")]
         (some (Schema.node (some .object)
           (some [("parent", Schema.node (some .object) none none none),
                  ("count", Schema.node (some .integer) none none none)]) none none))) ∧
    (("note", Json.str "hello") ∈
       parseStringifiedParams [] 1
         [("parent", Json.str "\x7b\"page_id\":\"x\"\x7d"),
          ("note", Json.str "hello"), ("count", Json.str "5")]
         (some (Schema.node (some .object)
           (some [("parent", Schema.node (some .object) none none none),
                  ("count", Schema.node (some .integer) none none none)]) none none))) := by
  refine ⟨⟨by decide, by decide, ?_⟩, ⟨by decide, ?_⟩, ?_, ?_⟩
  · exact ((parseStringifiedParams_recovery.2 [] 1
      [("parent", Json.str "\x7b\"page_id\":\"x\"\x7d"),
       ("note", Json.str "hello"), ("count", Json.str "5")]
      (Schema.node (some .object)
        (some [("parent", Schema.node (some .object) none none none),
               ("count", Schema.node (some .integer) none none none)]) none none)
      [("parent", Schema.node (some .object) none none none),
       ("count", Schema.node (some .integer) none none none)]
      none none rfl "parent" (Json.str "\x7b\"page_id\":\"x\"\x7d") (by decide)).1
      "\x7b\"page_id\":\"x\"\x7d" rfl
      (Schema.node (some .object) none none none)
      (Schema.node (some .object) none none none)
      rfl rfl rfl).1 (Json.obj [("page_id", Json.str "x")]) (by decide) rfl
  · exact ((parseStringifiedParams_recovery.2 [] 1
      [("parent", Json.str "not valid json \x7b\x7b\x7b")]
      (Schema.node (some .object)
        (some [("parent", Schema.node (some .object) none none none),
               ("count", Schema.node (some .integer) none none none)]) none none)
      [("parent", Schema.node (some .object) none none none),
       ("count", Schema.node (some .integer) none none none)]
      none none rfl "parent" (Json.str "not valid json \x7b\x7b\x7b") (by decide)).1
      "not valid json \x7b\x7b\x7b" rfl
      (Schema.node (some .object) none none none)
      (Schema.node (some .object) none none none)
      rfl rfl rfl).2 (by decide)
  · exact (parseStringifiedParams_recovery.2 [] 1
      [("parent", Json.str "\x7b\"page_id\":\"x\"\x7d"),
       ("note", Json.str "hello"), ("count", Json.str "5")]
      (Schema.node (some .object)
        (some [("parent", Schema.node (some .object) none none none),
               ("count", Schema.node (some .integer) none none none)]) none none)
      [("parent", Schema.node (some .object) none none none),
       ("count", Schema.node (some .integer) none none none)]
      none none rfl "count" (Json.str "5") (by decide)).2.1
      (Schema.node (some .integer) none none none)
      (Schema.node (some .integer) none none none)
      rfl rfl rfl
  · exact (parseStringifiedParams_recovery.2 [] 1
      [("parent", Json.str "\x7b\"page_id\":\"x\"\x7d"),
       ("note", Json.str "hello"), ("count", Json.str "5")]
      (Schema.node (some .object)
        (some [("parent", Schema.node (some .object) none none none),
               ("count", Schema.node (some .integer) none none none)]) none none)
      [("parent", Schema.node (some .object) none none none),
       ("count", Schema.node (some .integer) none none none)]
      none none rfl "note" (Json.str "hello") (by decide)).2.2 rfl
theorem listMap_id_of_id {α : Type} (l : List α) (f : α → α) (h : ∀ x ∈ l, f x = x) :
    l.map f = l := by
  induction l with
  | nil => rfl
  | cons x rest ih =>
    rw [List.map_cons, h x (List.mem_cons_self _ _), ih (fun y hy => h y (List.mem_cons_of_mem _ hy))]

theorem coerce_id_all (n : Nat) :
    (∀ v s, sizeOf v ≤ n → typedOk v s = true → coerceValue v s = v) ∧
    (∀ xs s, sizeOf xs ≤ n → typedOkList xs s = true → coerceList xs s = xs) ∧
    (∀ fs ps, sizeOf fs ≤ n → typedOkFields fs ps = true → coerceFields fs ps = fs) := by
  induction n using Nat.strong_induction_on with
  | _ n ih =>
    refine ⟨?_, ?_, ?_⟩
    · intro v s hsz hok
      match s with
      | .ref r => cases v <;> rfl
      | .node none props items addl => cases v <;> rfl
      | .node (some .string) props items addl => cases v <;> rfl
      | .node (some .integer) props items addl =>
        cases v with
        | str t =>
          simp only [typedOk, Option.isNone_iff_eq_none] at hok
          simp [coerceValue, hok]
        | null => rfl
        | bool b => rfl
        | num m => rfl
        | arr xs => rfl
        | obj fs => rfl
      | .node (some .number) props items addl =>
        cases v with
        | str t =>
          simp only [typedOk, Option.isNone_iff_eq_none] at hok
          simp [coerceValue, hok]
        | null => rfl
        | bool b => rfl
        | num m => rfl
        | arr xs => rfl
        | obj fs => rfl
      | .node (some .boolean) props items addl =>
        cases v with
        | str t =>
          simp only [typedOk, Bool.not_eq_true', Bool.or_eq_false_iff] at hok
          simp [coerceValue, hok.1, hok.2]
        | null => rfl
        | bool b => rfl
        | num m => rfl
        | arr xs => rfl
        | obj fs => rfl
      | .node (some .array) props items addl =>
        cases v with
        | arr xs =>
          cases items with
          | none => rfl
          | some it =>
            simp only [typedOk] at hok
            have hlt : sizeOf xs < n := by
              have := Json.arr.sizeOf_spec xs
              omega
            have hx := (ih (sizeOf xs) hlt).2.1 xs it (le_refl _) hok
            simp [coerceValue, hx]
        | null => rfl
        | bool b => rfl
        | num m => rfl
        | str t => rfl
        | obj fs => rfl
      | .node (some .object) props items addl =>
        cases v with
        | obj fs =>
          cases props with
          | none => rfl
          | some ps =>
            simp only [typedOk] at hok
            have hlt : sizeOf fs < n := by
              have := Json.obj.sizeOf_spec fs
              omega
            have hx := (ih (sizeOf fs) hlt).2.2 fs ps (le_refl _) hok
            simp [coerceValue, hx]
        | arr xs =>
          cases props with
          | none => rfl
          | some ps => simp [typedOk] at hok
        | null =>
          cases props <;> rfl
        | bool b =>
          cases props <;> rfl
        | num m =>
          cases props <;> rfl
        | str t =>
          cases props <;> rfl
    · intro xs s hsz hok
      match xs with
      | [] => rfl
      | x :: rest =>
        simp only [typedOkList, Bool.and_eq_true] at hok
        have hszx : sizeOf x < n := by
          have := List.cons.sizeOf_spec x rest
          omega
        have hszr : sizeOf rest < n := by
          have := List.cons.sizeOf_spec x rest
          omega
        have h1 := (ih (sizeOf x) hszx).1 x s (le_refl _) hok.1
        have h2 := (ih (sizeOf rest) hszr).2.1 rest s (le_refl _) hok.2
        simp [coerceList, h1, h2]
    · intro fs ps hsz hok
      match fs with
      | [] => rfl
      | (k, v) :: rest =>
        simp only [typedOkFields, Bool.and_eq_true] at hok
        obtain ⟨hv, hrest⟩ := hok
        have hszv : sizeOf v < n := by
          have h1 := List.cons.sizeOf_spec (k, v) rest
          have h2 := Prod.mk.sizeOf_spec k v
          omega
        have hszr : sizeOf rest < n := by
          have h1 := List.cons.sizeOf_spec (k, v) rest
          omega
        have h2 := (ih (sizeOf rest) hszr).2.2 rest ps (le_refl _) hrest
        cases hlook : List.lookup k ps with
        | none => simp [coerceFields, hlook, h2]
        | some psch =>
          rw [hlook] at hv
          have h1 := (ih (sizeOf v) hszv).1 v psch (le_refl _) hv
          simp [coerceFields, hlook, h1, h2]
theorem coerceParams_id (params : List (String × Json)) (schema : Schema)
    (h : typedOkParams params schema = true) :
    coerceParamsToSchemaTypes params schema = params := by
  match schema with
  | .ref r => rfl
  | .node ty none items addl => rfl
  | .node ty (some ps) items addl =>
    simp only [typedOkParams] at h
    unfold coerceParamsToSchemaTypes
    apply listMap_id_of_id
    intro kv hkv
    have hok := List.all_eq_true.mp h kv hkv
    obtain ⟨k, v⟩ := kv
    cases v with
    | null => rfl
    | bool b =>
      cases hlook : List.lookup k ps with
      | none => simp [hlook]
      | some psch =>
        rw [hlook] at hok
        simp only at hok
        simp [hlook, (coerce_id_all (sizeOf (Json.bool b))).1 _ _ (le_refl _) hok]
    | num m =>
      cases hlook : List.lookup k ps with
      | none => simp [hlook]
      | some psch =>
        rw [hlook] at hok
        simp only at hok
        simp [hlook, (coerce_id_all (sizeOf (Json.num m))).1 _ _ (le_refl _) hok]
    | str t =>
      cases hlook : List.lookup k ps with
      | none => simp [hlook]
      | some psch =>
        rw [hlook] at hok
        simp only at hok
        simp [hlook, (coerce_id_all (sizeOf (Json.str t))).1 _ _ (le_refl _) hok]
    | arr xs =>
      cases hlook : List.lookup k ps with
      | none => simp [hlook]
      | some psch =>
        rw [hlook] at hok
        simp only at hok
        simp [hlook, (coerce_id_all (sizeOf (Json.arr xs))).1 _ _ (le_refl _) hok]
    | obj fs =>
      cases hlook : List.lookup k ps with
      | none => simp [hlook]
      | some psch =>
        rw [hlook] at hok
        simp only at hok
        simp [hlook, (coerce_id_all (sizeOf (Json.obj fs))).1 _ _ (le_refl _) hok]

theorem psEntry_id (env : SchemaEnv) (fuel : Nat) (props : List (String × Schema))
    (kv : String × Json) (h : noRecoverableString env fuel props kv = true) :
    parseStringifiedEntry env fuel props kv = kv := by
  obtain ⟨k, v⟩ := kv
  cases v with
  | null => rfl
  | bool b => rfl
  | num m => rfl
  | arr xs => rfl
  | obj fs => rfl
  | str s =>
    simp only [noRecoverableString] at h
    simp only [parseStringifiedEntry]
    cases hlook : List.lookup k props with
    | none => simp [hlook]
    | some psch =>
      simp only [hlook] at h ⊢
      cases hres : resolveSchema env fuel psch with
      | none => simp [hres]
      | some rps =>
        simp only [hres] at h ⊢
        by_cases hstruct : resolvedTypeIsStructured rps = true
        · rw [if_pos hstruct] at h
          rw [if_pos hstruct]
          cases hparse : jsonParse s with
          | none => simp [hparse]
          | some p =>
            simp only [hparse] at h
            have hob : jsTypeofObjectNotNull p = false := by simpa using h
            simp [hparse, hob]
        · rw [if_neg hstruct]

theorem parseStringified_id (env : SchemaEnv) (fuel : Nat)
    (params : List (String × Json)) (bodySchema : Option Schema)
    (h : ∀ props it ad sch, bodySchema = some sch →
      resolveSchema env fuel sch = some (.node (some .object) (some props) it ad) →
      params.all (noRecoverableString env fuel props) = true) :
    parseStringifiedParams env fuel params bodySchema = params := by
  match bodySchema with
  | none => rfl
  | some sch =>
    simp only [parseStringifiedParams]
    cases hres : resolveSchema env fuel sch with
    | none => rfl
    | some rsch =>
      match rsch with
      | .ref r => rfl
      | .node none props2 it2 ad2 => rfl
      | .node (some .integer) props2 it2 ad2 => rfl
      | .node (some .number) props2 it2 ad2 => rfl
      | .node (some .boolean) props2 it2 ad2 => rfl
      | .node (some .string) props2 it2 ad2 => rfl
      | .node (some .array) props2 it2 ad2 => rfl
      | .node (some .object) none it2 ad2 => rfl
      | .node (some .object) (some props) it2 ad2 =>
        show List.map (parseStringifiedEntry env fuel props) params = params
        have hall := h props it2 ad2 sch rfl hres
        apply listMap_id_of_id
        intro kv hkv
        exact psEntry_id env fuel props kv (List.all_eq_true.mp hall kv hkv)

theorem reconcile_idempotent :
    ∀ env fuel inputSchema op params,
      typedOkParams params inputSchema = true →
      (∀ props it ad sch, operationBodySchema op = some sch →
        resolveSchema env fuel sch = some (.node (some .object) (some props) it ad) →
        params.all (noRecoverableString env fuel props) = true) →
      reconcileParams env fuel inputSchema op params = params := by
  intro env fuel inputSchema op params h1 h2
  unfold reconcileParams parseStringifiedParamsOp
  rw [coerceParams_id params inputSchema h1]
  exact parseStringified_id env fuel params (operationBodySchema op) h2
/-- Witness for C4: an already-correctly-typed argument set (a real
object for the object-typed `parent`, a number for the integer `count`,
a schema-absent string `note`) passes through the whole reconciliation
pipeline unchanged. -/
theorem reconcile_idempotent_witness :
    typedOkParams
      [("parent", Json.obj [("page_id", Json.str "x")]),
       ("count", Json.num (.fin 20)), ("note", Json.str "hello")]
      (Schema.node (some .object)
        (some [("parent", Schema.node (some .object)
                  (some [("page_id", Schema.node (some .string) none none none)]) none none),
               ("count", Schema.node (some .integer) none none none)]) none none) = true ∧
    reconcileParams [] 1
      (Schema.node (some .object)
        (some [("parent", Schema.node (some .object)
                  (some [("page_id", Schema.node (some .string) none none none)]) none none),
               ("count", Schema.node (some .integer) none none none)]) none none)
      { operationId := "post-page", parameters := [],
        requestBody := some (some (Schema.node (some .object)
          (some [("parent", Schema.node (some .object)
                    (some [("page_id", Schema.node (some .string) none none none)]) none none),
                 ("count", Schema.node (some .integer) none none none)]) none none)),
        fileParams := [] }
      [("parent", Json.obj [("page_id", Json.str "x")]),
       ("count", Json.num (.fin 20)), ("note", Json.str "hello")] =
    [("parent", Json.obj [("page_id", Json.str "x")]),
     ("count", Json.num (.fin 20)), ("note", Json.str "hello")] :=
  ⟨by decide,
   reconcile_idempotent [] 1 _ _ _ (by decide)
     (fun props it ad sch hsch hres => by
        have hs := Option.some.inj hsch
        subst hs
        have hn := Option.some.inj hres
        injection hn with e1 e2 e3 e4
        injection e2 with e2b
        subst e2b
        decide)⟩

theorem coerceList_eq_map (xs : List Json) (s : Schema) :
    coerceList xs s = xs.map (fun x => coerceValue x s) := by
  induction xs with
  | nil => simp [coerceList]
  | cons x rest ih => simp [coerceList, ih]

theorem coerceFields_eq_map (fs : List (String × Json)) (ps : List (String × Schema)) :
    coerceFields fs ps = fs.map (fun kv =>
      (kv.1, match List.lookup kv.1 ps with
             | some psch => coerceValue kv.2 psch
             | none => kv.2)) := by
  induction fs with
  | nil => simp [coerceFields]
  | cons kv rest ih =>
    obtain ⟨k, v⟩ := kv
    simp [coerceFields, ih]

theorem splitSign_cases (c : Char) (rest : List Char) :
    (c = '-' ∧ splitSign (c :: rest) = (true, rest)) ∨
    (c = '+' ∧ splitSign (c :: rest) = (false, rest)) ∨
    (c ≠ '-' ∧ c ≠ '+' ∧ splitSign (c :: rest) = (false, c :: rest)) := by
  by_cases h1 : c = '-'
  · subst h1
    exact Or.inl ⟨rfl, rfl⟩
  · by_cases h2 : c = '+'
    · subst h2
      exact Or.inr (Or.inl ⟨rfl, rfl⟩)
    · refine Or.inr (Or.inr ⟨h1, h2, ?_⟩)
      unfold splitSign
      split
      · next heq => injection heq with e1 _; exact absurd e1 h1
      · next heq => injection heq with e1 _; exact absurd e1 h2
      · rfl

theorem splitLeadingDigits_head (c : Char) (rest : List Char)
    (h : ((splitLeadingDigits (c :: rest)).1).isEmpty = false) : c.isDigit = true := by
  by_cases hd : c.isDigit
  · exact hd
  · exfalso
    unfold splitLeadingDigits at h
    simp [hd] at h

theorem isDigit_not_jsSpace (c : Char) (h : c.isDigit = true) : isJsSpace c = false := by
  by_contra hs
  have hsp : isJsSpace c = true := by simpa using hs
  unfold isJsSpace at hsp
  simp only [Bool.or_eq_true, beq_iff_eq] at hsp
  rcases hsp with ((((h1 | h2) | h3) | h4) | h5) | h6 <;> subst_vars <;>
    exact absurd h (by decide)

theorem validIntLiteral_parses (s : String) (h : isValidIntegerLiteral s = true) :
    (parseIntJs s).isSome := by
  unfold isValidIntegerLiteral at h
  simp only [Bool.and_eq_true, Bool.not_eq_true'] at h
  obtain ⟨h1, _⟩ := h
  simp only [parseIntJs]
  cases hs : s.toList with
  | nil =>
    rw [hs] at h1
    simp [splitSign, splitLeadingDigits] at h1
  | cons c rest =>
    rw [hs] at h1
    rcases splitSign_cases c rest with ⟨hc, heq⟩ | ⟨hc, heq⟩ | ⟨hc1, hc2, heq⟩
    · subst hc
      have hdrop : ('-' :: rest).dropWhile isJsSpace = '-' :: rest := by
        rw [List.dropWhile_cons]
        simp [isJsSpace]
      rw [hdrop, heq]
      rw [heq] at h1
      simp [h1]
    · subst hc
      have hdrop : ('+' :: rest).dropWhile isJsSpace = '+' :: rest := by
        rw [List.dropWhile_cons]
        simp [isJsSpace]
      rw [hdrop, heq]
      rw [heq] at h1
      simp [h1]
    · rw [heq] at h1
      have hdig : c.isDigit = true := splitLeadingDigits_head c rest h1
      have hdrop : (c :: rest).dropWhile isJsSpace = c :: rest := by
        rw [List.dropWhile_cons]
        simp [isDigit_not_jsSpace c hdig]
      rw [hdrop, heq]
      simp [h1]

/-- Counterexample to C2 as stated: `"20abc"` is not a valid integer
literal, yet `parseInt("20abc", 10)` parses the digit run and the
coercion rewrites the string to the number 20 instead of leaving it
unchanged. -/
theorem coerceValue_invalid_literal_counterexample :
    isValidIntegerLiteral "20abc" = false ∧
    coerceValue (Json.str "20abc") (Schema.node (some .integer) none none none) ≠
      Json.str "20abc" :=
  ⟨by decide, by decide⟩

/-- Claim C2 (amended): string coercion follows JS parse semantics —
`integer`/`number` targets parse via `parseInt`/`parseFloat` and keep the
original string exactly when the parse yields `NaN` (so a string with a
valid numeric prefix is coerced even with trailing characters, and every
valid literal, which always parses, is coerced); `boolean` targets match
`"true"`/`"false"` case-insensitively and leave any other string
unchanged; coercion recurses element-wise into arrays via `items` and
property-wise into objects via `properties`, passing unknown properties
through unchanged. -/
theorem coerceValue_primitive_coercion :
    (∀ t p i a, coerceValue (Json.str t) (Schema.node (some .integer) p i a) =
      (match parseIntJs t with
       | some n => Json.num (.fin (n : ℚ))
       | none => Json.str t)) ∧
    (∀ t p i a, coerceValue (Json.str t) (Schema.node (some .number) p i a) =
      (match parseFloatJs t with
       | some n => Json.num n
       | none => Json.str t)) ∧
    (∀ t p i a, coerceValue (Json.str t) (Schema.node (some .boolean) p i a) =
      (if jsToLowerCase t == "true" then Json.bool true
       else if jsToLowerCase t == "false" then Json.bool false
       else Json.str t)) ∧
    (∀ s, isValidIntegerLiteral s = true → (parseIntJs s).isSome) ∧
    (∀ xs it p a, coerceValue (Json.arr xs) (Schema.node (some .array) p (some it) a) =
      Json.arr (xs.map (fun x => coerceValue x it))) ∧
    (∀ fs ps it a,
      coerceValue (Json.obj fs) (Schema.node (some .object) (some ps) it a) = Json.obj
        (fs.map (fun kv =>
          (kv.1, match List.lookup kv.1 ps with
                 | some psch => coerceValue kv.2 psch
                 | none => kv.2)))) := by
  refine ⟨?_, ?_, ?_, ?_, ?_, ?_⟩
  · intro t p i a
    rfl
  · intro t p i a
    rfl
  · intro t p i a
    rfl
  · exact validIntLiteral_parses
  · intro xs it p a
    simp [coerceValue, coerceList_eq_map]
  · intro fs ps it a
    simp [coerceValue, coerceFields_eq_map]

/-- Witness for C2 at the spec's examples: `"42"` is a valid literal and
parses; `"20"` coerces to 20, `"TRUE"` to `true`, `"not-a-number"` stays
itself. -/
theorem coerceValue_primitive_coercion_witness :
    (isValidIntegerLiteral "42" = true ∧ (parseIntJs "42").isSome) ∧
    coerceValue (Json.str "20") (Schema.node (some .integer) none none none) =
      Json.num (.fin 20) ∧
    coerceValue (Json.str "TRUE") (Schema.node (some .boolean) none none none) =
      Json.bool true ∧
    coerceValue (Json.str "not-a-number")
      (Schema.node (some .number) none none none) = Json.str "not-a-number" :=
  ⟨⟨by decide, coerceValue_primitive_coercion.2.2.2.1 "42" (by decide)⟩,
   by decide, by decide, by decide⟩
